import Mathlib

/-!
# Verification of `src/prepare-data.py` (DTU curricula data-preparation pipeline)

This file gives a shallow embedding, in Lean 4, of the pandas pipeline in
`src/prepare-data.py`, and proves or refutes the frozen claims C1–C10 about it.

The table is modelled as a list of records; each pipeline stage is a Lean
function on such lists, translated stage by stage from the Python source.
Machine-level text is modelled over `List Char` / `String`.  The third-party
`unidecode` transliteration (not part of the repository's source) is modelled
from the spec's words: it is the identity on ASCII characters and maps the
Danish letters to their closest ASCII equivalents.  All concrete inputs used
in counterexamples and witnesses are pure ASCII, where this model agrees with
the library exactly.

Pandas-semantics notes reflected in the embedding:
* `Series.str.contains(..., case=False, regex=False, na=False)` lower-cases
  both sides and tests substring containment; missing values are `False`.
* `Series.apply(normalize_text)` raises (AttributeError) on a missing
  (NaN, i.e. float) value, since `float` has no `.upper`; the stage is
  therefore `Except`-valued and errors when a surviving row has no text.
* `df.groupby(ks).apply(f)` (pandas ≥ 2.0, `group_keys=True`) concatenates
  the groups in ascending sorted order of the group keys, keeping the
  original relative order inside each group.
* `df.sort_values(by=[c1, c2, c3])` sorts by `numpy.lexsort`, which is a
  stable sort, regardless of the `kind` argument.
* `df.drop_duplicates()` keeps the first occurrence of each duplicated row.
-/

/-! ## Character-level utilities (ASCII model of Python string methods) -/

/-- ASCII decimal digit test (`\d` of the regex `^\d+` on ASCII input). -/
def isDigitCh (c : Char) : Bool :=
  48 ≤ c.toNat && c.toNat ≤ 57

/-- Python whitespace for `str.strip()`: space, tab, LF, CR, FF, VT. -/
def isSpaceCh (c : Char) : Bool :=
  c = ' ' || c = '\t' || c = '\n' || c = '\x0d' || c = '\x0c' || c = '\x0b'

/-- `str.upper` of Python, restricted to ASCII letters plus the Danish
letters appearing in this data set (æ, ø, å, é). -/
def upperCh (c : Char) : Char :=
  if 97 ≤ c.toNat ∧ c.toNat ≤ 122 then Char.ofNat (c.toNat - 32)
  else if c = 'æ' then 'Æ' else if c = 'ø' then 'Ø'
  else if c = 'å' then 'Å' else if c = 'é' then 'É' else c

/-- `str.lower` of Python, restricted likewise (used by the case-insensitive
marker search). -/
def lowerCh (c : Char) : Char :=
  if 65 ≤ c.toNat ∧ c.toNat ≤ 90 then Char.ofNat (c.toNat + 32)
  else if c = 'Æ' then 'æ' else if c = 'Ø' then 'ø'
  else if c = 'Å' then 'å' else if c = 'É' then 'é' else c

/-- Modelled from the spec: the `unidecode` library (absent from `src/`)
"transliterates non-ASCII characters to their closest ASCII equivalent".
Identity on ASCII; table for the Danish letters; other characters are
dropped (the library's behaviour for unmapped code points). -/
def unidecChar (c : Char) : List Char :=
  if c.toNat < 128 then [c]
  else if c = 'Æ' then ['A', 'E'] else if c = 'æ' then ['a', 'e']
  else if c = 'Ø' then ['O'] else if c = 'ø' then ['o']
  else if c = 'Å' then ['A'] else if c = 'å' then ['a']
  else if c = 'É' then ['E'] else if c = 'é' then ['e']
  else []

/-- `unidecode` on a character list. -/
def unidec (cs : List Char) : List Char :=
  cs.flatMap unidecChar

/-- Left trim: drop a leading run of whitespace. -/
def trimLeftCh (cs : List Char) : List Char :=
  cs.dropWhile isSpaceCh

/-- Python `str.strip()`: drop leading and trailing whitespace. -/
def stripCh (cs : List Char) : List Char :=
  (trimLeftCh ((trimLeftCh cs.reverse).reverse))

/-- Does list `p` occur at the start of `s`? -/
def leadsWith : List Char → List Char → Bool
  | [], _ => true
  | _ :: _, [] => false
  | p :: ps, s :: ss => p = s && leadsWith ps ss

/-- Substring containment on character lists. -/
def containsSub (s p : List Char) : Bool :=
  match s with
  | [] => leadsWith p []
  | _ :: rest => leadsWith p s || containsSub rest p

/-- Case-insensitive substring containment, as
`str.contains(pat, case=False, regex=False)` does: lower-case both sides. -/
def containsCI (s p : String) : Bool :=
  containsSub (s.data.map lowerCh) (p.data.map lowerCh)

/-! ## Decimal numerals: formatting and parsing, with a round-trip proof -/

/-- Digit character for a value `0..9` (other values map to `'*'`,
never produced). -/
def digitCh : Nat → Char
  | 0 => '0' | 1 => '1' | 2 => '2' | 3 => '3' | 4 => '4'
  | 5 => '5' | 6 => '6' | 7 => '7' | 8 => '8' | 9 => '9'
  | _ => '*'

/-- Numeric value of a digit character. -/
def digitVal (c : Char) : Nat :=
  c.toNat - 48

/-- Decimal digit list, fuel-driven (structural, so the kernel can
evaluate it). -/
def natDigitsAux : Nat → Nat → List Char
  | 0, _ => []
  | fuel + 1, n =>
    if n < 10 then [digitCh n]
    else natDigitsAux fuel (n / 10) ++ [digitCh (n % 10)]

/-- Decimal digit list of a natural number (most significant first). -/
def natDigits (n : Nat) : List Char :=
  natDigitsAux (n + 1) n

/-- Zero-pad a digit list on the left to width `w` (as `%0wd`). -/
def padZeros (w : Nat) (cs : List Char) : List Char :=
  List.replicate (w - cs.length) '0' ++ cs

/-- Value of a digit list (horner evaluation). -/
def digitsVal (cs : List Char) : Nat :=
  cs.foldl (fun a c => a * 10 + digitVal c) 0

/-- Strict decimal parse: every character a digit and at least one digit. -/
def readNum (cs : List Char) : Option Nat :=
  if cs ≠ [] ∧ cs.all isDigitCh then some (digitsVal cs) else none

theorem digitCh_isDigit {r : Nat} (h : r < 10) : isDigitCh (digitCh r) = true := by
  interval_cases r <;> decide

theorem digitVal_digitCh {r : Nat} (h : r < 10) : digitVal (digitCh r) = r := by
  interval_cases r <;> decide

theorem natDigitsAux_all_digits :
    ∀ fuel n, n < fuel → (natDigitsAux fuel n).all isDigitCh = true := by
  intro fuel
  induction fuel with
  | zero => intro n h; omega
  | succ f ih =>
    intro n h
    rw [natDigitsAux]
    split
    · rename_i h10
      simp [List.all, digitCh_isDigit h10]
    · rename_i h10
      rw [List.all_append, Bool.and_eq_true]
      refine And.intro (ih (n / 10) (by omega)) ?_
      simp [List.all, digitCh_isDigit (Nat.mod_lt n (by omega) : n % 10 < 10)]

theorem natDigits_all_digits (n : Nat) : (natDigits n).all isDigitCh = true :=
  natDigitsAux_all_digits (n + 1) n (Nat.lt_succ_self n)

theorem natDigits_ne_nil (n : Nat) : natDigits n ≠ [] := by
  rw [natDigits, natDigitsAux]; split <;> simp

theorem digitsVal_append (xs ys : List Char) :
    digitsVal (xs ++ ys) = ys.foldl (fun a c => a * 10 + digitVal c) (digitsVal xs) := by
  simp [digitsVal, List.foldl_append]

theorem digitsVal_natDigitsAux :
    ∀ fuel n, n < fuel → digitsVal (natDigitsAux fuel n) = n := by
  intro fuel
  induction fuel with
  | zero => intro n h; omega
  | succ f ih =>
    intro n h
    rw [natDigitsAux]
    split
    · rename_i h10
      simp [digitsVal, List.foldl, digitVal_digitCh h10]
    · rename_i h10
      rw [digitsVal_append, ih (n / 10) (by omega)]
      simp [List.foldl, digitVal_digitCh (Nat.mod_lt n (by omega) : n % 10 < 10)]
      omega

theorem digitsVal_natDigits (n : Nat) : digitsVal (natDigits n) = n :=
  digitsVal_natDigitsAux (n + 1) n (Nat.lt_succ_self n)

theorem digitsVal_padZeros (w : Nat) (cs : List Char) :
    digitsVal (padZeros w cs) = digitsVal cs := by
  unfold padZeros
  generalize w - cs.length = k
  induction k with
  | zero => simp
  | succ m ih =>
    rw [List.replicate_succ]
    simpa [digitsVal, digitVal] using ih

theorem padZeros_all_digits (w : Nat) (cs : List Char)
    (h : cs.all isDigitCh = true) : (padZeros w cs).all isDigitCh = true := by
  unfold padZeros
  rw [List.all_append, Bool.and_eq_true]
  refine And.intro ?_ h
  simp only [List.all_eq_true]
  intro c hc
  rw [List.eq_of_mem_replicate hc]
  decide

theorem padZeros_ne_nil (w : Nat) (cs : List Char) (h : cs ≠ []) :
    padZeros w cs ≠ [] := by
  unfold padZeros
  intro hcon
  rcases List.append_eq_nil.mp hcon with ⟨_, h2⟩
  exact h h2

theorem readNum_padZeros_natDigits (w n : Nat) :
    readNum (padZeros w (natDigits n)) = some n := by
  unfold readNum
  rw [if_pos]
  · rw [digitsVal_padZeros, digitsVal_natDigits]
  · exact ⟨padZeros_ne_nil w _ (natDigits_ne_nil n),
      padZeros_all_digits w _ (natDigits_all_digits n)⟩

/-! ## Calendar dates: `pd.to_datetime` (strict formats) and `strftime` -/

/-- Split a character list at exactly two occurrences of `sep` into three
separator-free parts; `none` if the shape does not match. -/
def splitSep (sep : Char) (cs : List Char) : Option (List Char × List Char × List Char) :=
  let a := cs.takeWhile (fun c => c != sep)
  match cs.dropWhile (fun c => c != sep) with
  | _ :: rest1 =>
    let b := rest1.takeWhile (fun c => c != sep)
    match rest1.dropWhile (fun c => c != sep) with
    | _ :: rest2 => if rest2.any (fun c => c == sep) then none else some (a, b, rest2)
    | [] => none
  | [] => none

/-- Gregorian leap year. -/
def leapYear (y : Nat) : Bool :=
  (y % 4 == 0 && y % 100 != 0) || y % 400 == 0

/-- Days in a month (with leap-year handling), as `pandas.Timestamp`
validates. -/
def daysInMonth (y m : Nat) : Nat :=
  if m = 2 then (if leapYear y then 29 else 28)
  else if m = 4 ∨ m = 6 ∨ m = 9 ∨ m = 11 then 30 else 31

/-- `pd.to_datetime(value, format="%d/%m/%Y")`, as a parser returning
`(day, month, year)`; `none` models the raised parse error. -/
def parseDMY (s : String) : Option (Nat × Nat × Nat) :=
  match splitSep '/' s.data with
  | some (ds, ms, ys) =>
    match readNum ds, readNum ms, readNum ys with
    | some d, some m, some y =>
      if ds.length ≤ 2 ∧ ms.length ≤ 2 ∧ ys.length = 4 ∧
          1 ≤ m ∧ m ≤ 12 ∧ 1 ≤ d ∧ d ≤ daysInMonth y m
      then some (d, m, y) else none
    | _, _, _ => none
  | none => none

/-- `strftime("%Y-%m-%d")`: zero-padded ISO calendar-date text. -/
def fmtISO (y m d : Nat) : String :=
  ⟨padZeros 4 (natDigits y) ++ '-' :: (padZeros 2 (natDigits m) ++ '-' :: padZeros 2 (natDigits d))⟩

/-- `pd.to_datetime` on ISO `yyyy-mm-dd` text, returning
`(year, month, day)`. -/
def parseISO (s : String) : Option (Nat × Nat × Nat) :=
  match splitSep '-' s.data with
  | some (ys, ms, ds) =>
    match readNum ys, readNum ms, readNum ds with
    | some y, some m, some d =>
      if 1 ≤ m ∧ m ≤ 12 ∧ 1 ≤ d ∧ d ≤ daysInMonth y m then some (y, m, d) else none
    | _, _, _ => none
  | none => none

theorem digit_ne_sep {c s : Char} (hc : isDigitCh c = true) (hs : isDigitCh s = false) :
    (c != s) = true := by
  simp only [bne_iff_ne, ne_eq]
  intro h
  rw [h, hs] at hc
  exact Bool.false_ne_true hc

theorem takeWhile_append_stop {p : Char → Bool} {a : List Char}
    (h : ∀ c ∈ a, p c = true) {x : Char} (hx : p x = false) (rest : List Char) :
    (a ++ x :: rest).takeWhile p = a := by
  induction a with
  | nil => simp [List.takeWhile_cons, hx]
  | cons hd tl ih =>
    rw [List.cons_append, List.takeWhile_cons_of_pos (h hd (by simp)),
      ih (fun c hc => h c (by simp [hc]))]

theorem dropWhile_append_stop {p : Char → Bool} {a : List Char}
    (h : ∀ c ∈ a, p c = true) {x : Char} (hx : p x = false) (rest : List Char) :
    (a ++ x :: rest).dropWhile p = x :: rest := by
  induction a with
  | nil => simp [List.dropWhile_cons, hx]
  | cons hd tl ih =>
    rw [List.cons_append, List.dropWhile_cons_of_pos (h hd (by simp))]
    exact ih (fun c hc => h c (by simp [hc]))

theorem splitSep_exact {sep : Char} {a b c : List Char}
    (ha : ∀ x ∈ a, (x != sep) = true) (hb : ∀ x ∈ b, (x != sep) = true)
    (hc : ∀ x ∈ c, (x != sep) = true) :
    splitSep sep (a ++ sep :: (b ++ sep :: c)) = some (a, b, c) := by
  have hsep : ((sep != sep) = false) := by simp
  unfold splitSep
  rw [takeWhile_append_stop ha hsep, dropWhile_append_stop ha hsep]
  simp only
  rw [takeWhile_append_stop hb hsep, dropWhile_append_stop hb hsep]
  simp only
  rw [if_neg]
  simp only [List.any_eq_true, beq_iff_eq, not_exists, not_and]
  intro x hx
  have := hc x hx
  simpa [bne_iff_ne] using this

theorem mem_padZeros_natDigits_digit {n w : Nat} {c : Char}
    (h : c ∈ padZeros w (natDigits n)) : isDigitCh c = true := by
  have := padZeros_all_digits w (natDigits n) (natDigits_all_digits n)
  rw [List.all_eq_true] at this
  exact this c h

/-- Formatting a valid date and re-parsing it recovers the components. -/
theorem parseISO_fmtISO {y m d : Nat} (hm1 : 1 ≤ m) (hm2 : m ≤ 12)
    (hd1 : 1 ≤ d) (hd2 : d ≤ daysInMonth y m) :
    parseISO (fmtISO y m d) = some (y, m, d) := by
  have hdash : isDigitCh '-' = false := by decide
  unfold parseISO fmtISO
  simp only
  rw [splitSep_exact
    (fun x hx => digit_ne_sep (mem_padZeros_natDigits_digit hx) hdash)
    (fun x hx => digit_ne_sep (mem_padZeros_natDigits_digit hx) hdash)
    (fun x hx => digit_ne_sep (mem_padZeros_natDigits_digit hx) hdash)]
  simp only [readNum_padZeros_natDigits]
  rw [if_pos ⟨hm1, hm2, hd1, hd2⟩]

/-- Unpadded decimal rendering (Python `str(n)` / `f"{n}"`). -/
def natToStr (n : Nat) : String :=
  ⟨natDigits n⟩

/-! ## Data model: one record per row of the table -/

/-- A row of the input CSV (`pd.read_csv(INPUT_PATH, sep=";")`).
`kurstxt` is `Option`-valued: `none` models a missing (NaN) course text. -/
structure RawRow where
  studienr : String
  uddannelse : String
  kurskode : String
  kurstxt : Option String
  bedommelse : String
  skala : String
  ects : String
  udprovning : String
  censur : String
  bedommelsesdato : String
deriving DecidableEq, Repr

/-- A row after the cohort filter dropped the `UDDANNELSE` column. -/
structure Row where
  studienr : String
  kurskode : String
  kurstxt : Option String
  bedommelse : String
  skala : String
  ects : String
  udprovning : String
  censur : String
  bedommelsesdato : String
deriving DecidableEq, Repr

/-- A row after text normalization (`kurstxt` is a present, normalized
string). -/
structure NRow where
  studienr : String
  kurskode : String
  kurstxt : String
  bedommelse : String
  skala : String
  ects : String
  udprovning : String
  censur : String
  bedommelsesdato : String
deriving DecidableEq, Repr

/-- A row after the `SEMESTER` column was added. -/
structure LRow where
  studienr : String
  kurskode : String
  kurstxt : String
  bedommelse : String
  skala : String
  ects : String
  udprovning : String
  censur : String
  bedommelsesdato : String
  semester : String
deriving DecidableEq, Repr

/-- A row after the `SEMESTER_END` column was added. -/
structure ARow where
  studienr : String
  kurskode : String
  kurstxt : String
  bedommelse : String
  skala : String
  ects : String
  udprovning : String
  censur : String
  bedommelsesdato : String
  semester : String
  semesterEnd : String
deriving DecidableEq, Repr

/-- A final row, after the `ATTEMPT` column was added. -/
structure FRow where
  studienr : String
  kurskode : String
  kurstxt : String
  bedommelse : String
  skala : String
  ects : String
  udprovning : String
  censur : String
  bedommelsesdato : String
  semester : String
  semesterEnd : String
  attempt : Nat
deriving DecidableEq, Repr

/-! ## Stage 1–2: cohort filter -/

/-- The fixed education program kept by the cohort filter. -/
def targetProgram : String :=
  "Softwareteknologi, ing.prof.bach."

/-- Drop the `UDDANNELSE` column from a row. -/
def dropProgram (r : RawRow) : Row :=
  ⟨r.studienr, r.kurskode, r.kurstxt, r.bedommelse, r.skala, r.ects,
    r.udprovning, r.censur, r.bedommelsesdato⟩

/-- `df = df[df[EDUCATION] == "Softwareteknologi, ing.prof.bach."]` followed
by `df.drop(columns=[EDUCATION])`. -/
def cohortRows (l : List RawRow) : List Row :=
  (l.filter (fun r => r.uddannelse == targetProgram)).map dropProgram

/-- Number of rows carrying study number `s`
(`df[STUDY_NUMBER].value_counts()` at one key). -/
def countStud (l : List Row) (s : String) : Nat :=
  (l.filter (fun r => r.studienr == s)).length

/-- `valid_study_numbers = course_counts[course_counts > 2].index;`
`df = df[df[STUDY_NUMBER].isin(valid_study_numbers)]`. -/
def activityFilter (l : List Row) : List Row :=
  l.filter (fun r => decide (2 < countStud l r.studienr))

/-! ## Stage 3: institute-course exclusion -/

/-- `df[COURSE_TEXT].str.contains("institut", regex=False, na=False,
case=False)` at one row: `none` (NaN) is non-matching. -/
def matchesMarker (r : Row) : Bool :=
  match r.kurstxt with
  | none => false
  | some t => containsCI t "institut"

/-- The study numbers having at least one marker-matching row. -/
def instituteStuds (l : List Row) : List String :=
  (l.filter matchesMarker).map (fun r => r.studienr)

/-- `df = df[~df[STUDY_NUMBER].isin(institute_study_numbers)]`. -/
def instituteFilter (l : List Row) : List Row :=
  l.filter (fun r => !(instituteStuds l).contains r.studienr)

/-! ## Stage 4: text normalization -/

/-- `normalize_text` on characters: `text.upper()`, then
`re.sub(r"^\d+", "", text)`, then `unidecode(text)`, then `.strip()`. -/
def normChars (cs : List Char) : List Char :=
  stripCh (unidec ((cs.map upperCh).dropWhile isDigitCh))

/-- The `normalize_text` function of the source, on strings. -/
def normalize_text (s : String) : String :=
  ⟨normChars s.data⟩

/-- One row of `df[COURSE_TEXT].apply(normalize_text)`: a missing text is a
float NaN, on which `.upper()` raises `AttributeError`. -/
def normalizeRow (r : Row) : Except String NRow :=
  match r.kurstxt with
  | none => .error "AttributeError: float object has no attribute upper"
  | some t => .ok ⟨r.studienr, r.kurskode, normalize_text t, r.bedommelse,
      r.skala, r.ects, r.udprovning, r.censur, r.bedommelsesdato⟩

/-- `df[COURSE_TEXT] = df[COURSE_TEXT].apply(normalize_text)`. -/
def normalizeStage (l : List Row) : Except String (List NRow) :=
  l.mapM normalizeRow

/-! ## Stage 5: course-code canonicalization -/

/-- Keep the first occurrence of each element (`drop_duplicates` /
hash-table insertion order), with an already-seen accumulator. -/
def dedupFirstAux {α : Type} [DecidableEq α] (seen : List α) : List α → List α
  | [] => []
  | c :: cs =>
    if c ∈ seen then dedupFirstAux seen cs
    else c :: dedupFirstAux (c :: seen) cs

/-- Keep the first occurrence of each element. -/
def dedupFirst {α : Type} [DecidableEq α] (l : List α) : List α :=
  dedupFirstAux [] l

/-- Grouping key of the canonicalizer: `(COURSE_TEXT, ECTS)`. -/
def rowKey (r : NRow) : String × String :=
  (r.kurstxt, r.ects)

/-- The rows of one `(COURSE_TEXT, ECTS)` group. -/
def keyGroup (l : List NRow) (k : String × String) : List NRow :=
  l.filter (fun r => rowKey r == k)

/-- The course codes occurring in one group (with multiplicity). -/
def groupCodes (l : List NRow) (k : String × String) : List String :=
  (keyGroup l k).map (fun r => r.kurskode)

/-- `counts = grouped.nunique(); duplicate_keys = counts[counts > 1].index`:
does key `k` have more than one distinct course code? -/
def isDupKey (l : List NRow) (k : String × String) : Bool :=
  decide (1 < (dedupFirst (groupCodes l k)).length)

/-- Multiplicity of code `c` in a code list. -/
def codeCount (cs : List String) (c : String) : Nat :=
  (cs.filter (fun x => x == c)).length

/-- `s.value_counts().idxmax()`: the first code (in first-occurrence order)
achieving the maximal multiplicity. -/
def modalCode (cs : List String) : String :=
  (dedupFirst cs).foldl (fun best c => if codeCount cs best < codeCount cs c then c else best) ""

/-- `df[COURSE_NUMBER] = [mapping.get(k, num) for k, num in ...]` at one
row: rows of multi-code groups get the group's modal code. -/
def rewriteRow (l : List NRow) (r : NRow) : NRow :=
  if isDupKey l (rowKey r) then
    { r with kurskode := modalCode (groupCodes l (rowKey r)) }
  else r

/-- The whole canonicalization cell: the rewrite and the
`df.drop_duplicates()` happen only under `if len(duplicate_keys) > 0`. -/
def canonicalize (l : List NRow) : List NRow :=
  if l.any (fun r => isDupKey l (rowKey r)) then
    dedupFirst (l.map (rewriteRow l))
  else l

/-! ## Stage 6: date normalization -/

/-- `pd.to_datetime(value, format="%d/%m/%Y")` then
`.strftime("%Y-%m-%d")` on one value. -/
def convertDate (s : String) : Except String String :=
  match parseDMY s with
  | some (d, m, y) => .ok (fmtISO y m d)
  | none => .error ("time data " ++ s ++ " does not match format")

/-- Date conversion on one row. -/
def dateRow (r : NRow) : Except String NRow :=
  (convertDate r.bedommelsesdato).map (fun iso => { r with bedommelsesdato := iso })

/-- The two date-conversion lines of the source. -/
def dateStage (l : List NRow) : Except String (List NRow) :=
  l.mapM dateRow

/-! ## Stage 7: semester labelling -/

/-- The `get_semester` function of the source:
`"Fall" if date.month <= 4 or date.month >= 10 else "Spring"`,
then `f"{semester} {date.year}"`. -/
def get_semester (value : String) : Except String String :=
  match parseISO value with
  | some (y, m, _) =>
    .ok ((if m ≤ 4 ∨ 10 ≤ m then "Fall" else "Spring") ++ " " ++ natToStr y)
  | none => .error ("time data " ++ value ++ " does not match")

/-- Semester labelling on one row. -/
def labelRow (r : NRow) : Except String LRow :=
  (get_semester r.bedommelsesdato).map (fun sem =>
    ⟨r.studienr, r.kurskode, r.kurstxt, r.bedommelse, r.skala, r.ects,
      r.udprovning, r.censur, r.bedommelsesdato, sem⟩)

/-- `df["SEMESTER"] = df[GRADING_DATE].apply(get_semester)`. -/
def labelStage (l : List NRow) : Except String (List LRow) :=
  l.mapM labelRow

/-! ## Stage 8: semester-date alignment -/

/-- Group key of the aligner: `(STUDIENR, SEMESTER)`. -/
def lKey (r : LRow) : String × String :=
  (r.studienr, r.semester)

/-- Strict lexicographic order on character lists by code point (how both
Python and pandas compare strings). -/
def strLtB : List Char → List Char → Bool
  | [], [] => false
  | [], _ :: _ => true
  | _ :: _, [] => false
  | a :: as, b :: bs =>
    if a.toNat < b.toNat then true
    else if b.toNat < a.toNat then false
    else strLtB as bs

/-- Non-strict lexicographic order on character lists by code point. -/
def strLeB : List Char → List Char → Bool
  | [], _ => true
  | _ :: _, [] => false
  | a :: as, b :: bs =>
    if a.toNat < b.toNat then true
    else if b.toNat < a.toNat then false
    else strLeB as bs

/-- Ascending lexicographic order on string pairs (how pandas sorts the
group keys of `groupby([STUDY_NUMBER, "SEMESTER"])`). -/
def pairLeB (a b : String × String) : Bool :=
  if a.1 = b.1 then strLeB a.2.data b.2.data else strLtB a.1.data b.1.data

/-- `pairLeB` as a decidable relation. -/
def pairLeRel (a b : String × String) : Prop :=
  pairLeB a b = true

instance : DecidableRel pairLeRel :=
  fun a b => instDecidableEqBool (pairLeB a b) true

/-- Attach a `SEMESTER_END` value to a row. -/
def mkARow (r : LRow) (e : String) : ARow :=
  ⟨r.studienr, r.kurskode, r.kurstxt, r.bedommelse, r.skala, r.ects,
    r.udprovning, r.censur, r.bedommelsesdato, r.semester, e⟩

/-- The `set_semester_grading_dates` function on one group: parse all of the
group's grading dates, take the year of the first row, and give every row
`June 1` of that year if the group's label contains `"Spring"`, else
`December 1`. -/
def alignGroup (g : List LRow) : Except String (List ARow) :=
  if g.all (fun r => (parseISO r.bedommelsesdato).isSome) then
    match g with
    | [] => .ok []
    | r0 :: _ =>
      match parseISO r0.bedommelsesdato with
      | some (y, _, _) =>
        .ok (g.map (fun r => mkARow r
          (if containsSub r0.semester.data "Spring".data then fmtISO y 6 1 else fmtISO y 12 1)))
      | none => .error "unparseable grading date"
  else .error "unparseable grading date"

/-- Apply `alignGroup` to the groups of the given keys, in order, and
concatenate the results (error = the raised exception aborting the run). -/
def alignConcat (l : List LRow) : List (String × String) → Except String (List ARow)
  | [] => .ok []
  | k :: ks =>
    (alignGroup (l.filter (fun r => lKey r == k))).bind (fun g =>
      (alignConcat l ks).map (fun rest => g ++ rest))

/-- `df.groupby([STUDY_NUMBER, "SEMESTER"]).apply(set_semester_grading_dates)`
followed by `reset_index(drop=True)`: groups concatenated in ascending key
order, original order kept inside each group. -/
def alignStage (l : List LRow) : Except String (List ARow) :=
  alignConcat l ((dedupFirst (l.map lKey)).insertionSort pairLeRel)

/-! ## Stage 9: attempt counter -/

/-- Group key of the attempt counter: `(STUDIENR, KURSKODE)`. -/
def aKey (r : ARow) : String × String :=
  (r.studienr, r.kurskode)

/-- Attach an `ATTEMPT` value to a row. -/
def mkFRow (r : ARow) (n : Nat) : FRow :=
  ⟨r.studienr, r.kurskode, r.kurstxt, r.bedommelse, r.skala, r.ects,
    r.udprovning, r.censur, r.bedommelsesdato, r.semester, r.semesterEnd, n⟩

/-- `groupby([STUDY_NUMBER, COURSE_NUMBER]).cumcount() + 1` in row order:
each row's attempt is one plus the number of earlier rows sharing its key. -/
def attachAttempts : List ARow → List ARow → List FRow
  | _, [] => []
  | seen, r :: rs =>
    mkFRow r ((seen.filter (fun x => aKey x == aKey r)).length + 1)
      :: attachAttempts (seen ++ [r]) rs

/-- `df["ATTEMPT"] = df.groupby([STUDY_NUMBER, COURSE_NUMBER]).cumcount() + 1`. -/
def addAttempts (l : List ARow) : List FRow :=
  attachAttempts [] l

/-! ## Stage 10: final sort -/

/-- Sort key: `(STUDIENR, KURSKODE, "SEMESTER_END")`. -/
def fKey (r : FRow) : String × String × String :=
  (r.studienr, r.kurskode, r.semesterEnd)

/-- Ascending lexicographic order on string triples. -/
def tripLeB (a b : String × String × String) : Bool :=
  if a.1 = b.1 then
    (if a.2.1 = b.2.1 then strLeB a.2.2.data b.2.2.data else strLtB a.2.1.data b.2.1.data)
  else strLtB a.1.data b.1.data

/-- The sort order of the final sort, as a relation on rows. -/
def fLe (a b : FRow) : Prop :=
  tripLeB (fKey a) (fKey b) = true

instance : DecidableRel fLe :=
  fun a b => instDecidableEqBool (tripLeB (fKey a) (fKey b)) true

/-- `df.sort_values(by=[STUDY_NUMBER, COURSE_NUMBER, "SEMESTER_END"])`:
a stable (lexsort) sort on the triple key. -/
def sortStage (l : List FRow) : List FRow :=
  l.insertionSort fLe

/-! ## The whole pipeline -/

/-- The full pipeline of `src/prepare-data.py`, from the loaded CSV rows to
the rows written to the output file.  `Except.error` models an uncaught
Python exception aborting the run. -/
def pipeline (input : List RawRow) : Except String (List FRow) :=
  let l3 := instituteFilter (activityFilter (cohortRows input))
  (normalizeStage l3).bind (fun l4 =>
    (dateStage (canonicalize l4)).bind (fun l6 =>
      (labelStage l6).bind (fun l7 =>
        (alignStage l7).map (fun l8 => sortStage (addAttempts l8)))))

/-! ## A column-aware model of the cohort-filter cell (for re-application) -/

/-- A data frame for the cohort-filter cell: its column list plus its rows.
Only the presence of the `UDDANNELSE` column is tracked; row payloads keep
their record type. -/
structure CohortDF where
  cols : List String
  rows : List RawRow
deriving DecidableEq, Repr

/-- The cohort-filter cell on such a frame:
`df[df[EDUCATION] == ...]` raises `KeyError` when the column is absent;
otherwise it filters the rows and drops the column. -/
def cohortFilterDF (t : CohortDF) : Except String CohortDF :=
  if t.cols.contains "UDDANNELSE" then
    .ok ⟨t.cols.filter (fun c => !(c == "UDDANNELSE")),
      t.rows.filter (fun r => r.uddannelse == targetProgram)⟩
  else .error "KeyError: UDDANNELSE"

/-! ## Shared helper lemmas -/

theorem ofNat_toNat_eq {n : Nat} (h : n < 55296) : (Char.ofNat n).toNat = n := by
  have hv : n.isValidChar := Or.inl h
  unfold Char.ofNat
  rw [dif_pos hv]
  simp [Char.ofNatAux, Char.toNat, UInt32.toNat]

theorem upperCh_ascii {c : Char} (h : c.toNat < 128) :
    (upperCh c).toNat < 128 ∧ ¬(97 ≤ (upperCh c).toNat ∧ (upperCh c).toNat ≤ 122) := by
  unfold upperCh
  by_cases hl : 97 ≤ c.toNat ∧ c.toNat ≤ 122
  · rw [if_pos hl, ofNat_toNat_eq (by omega)]
    omega
  · have h1 : c ≠ 'æ' := by intro e; rw [e] at h; exact absurd h (by decide)
    have h2 : c ≠ 'ø' := by intro e; rw [e] at h; exact absurd h (by decide)
    have h3 : c ≠ 'å' := by intro e; rw [e] at h; exact absurd h (by decide)
    have h4 : c ≠ 'é' := by intro e; rw [e] at h; exact absurd h (by decide)
    rw [if_neg hl, if_neg h1, if_neg h2, if_neg h3, if_neg h4]
    exact ⟨h, hl⟩

theorem upperCh_fix {c : Char} (h : c.toNat < 128)
    (hl : ¬(97 ≤ c.toNat ∧ c.toNat ≤ 122)) : upperCh c = c := by
  unfold upperCh
  have h1 : c ≠ 'æ' := by intro e; rw [e] at h; exact absurd h (by decide)
  have h2 : c ≠ 'ø' := by intro e; rw [e] at h; exact absurd h (by decide)
  have h3 : c ≠ 'å' := by intro e; rw [e] at h; exact absurd h (by decide)
  have h4 : c ≠ 'é' := by intro e; rw [e] at h; exact absurd h (by decide)
  rw [if_neg hl, if_neg h1, if_neg h2, if_neg h3, if_neg h4]

theorem unidec_ascii {cs : List Char} (h : ∀ c ∈ cs, c.toNat < 128) :
    unidec cs = cs := by
  induction cs with
  | nil => rfl
  | cons c rest ih =>
    unfold unidec
    rw [List.flatMap_cons]
    have hc : unidecChar c = [c] := by
      unfold unidecChar
      rw [if_pos (h c (by simp))]
    rw [hc]
    have := ih (fun x hx => h x (by simp [hx]))
    unfold unidec at this
    rw [this]
    rfl

theorem map_eq_self_of {α : Type} {f : α → α} {l : List α}
    (h : ∀ c ∈ l, f c = c) : l.map f = l := by
  induction l with
  | nil => rfl
  | cons c rest ih =>
    rw [List.map_cons, h c (by simp), ih (fun x hx => h x (by simp [hx]))]

theorem dropWhile_eq_self_of_head {α : Type} {p : α → Bool} {l : List α}
    (h : ∀ c, l.head? = some c → p c = false) : l.dropWhile p = l := by
  cases l with
  | nil => rfl
  | cons c rest =>
    rw [List.dropWhile_cons, h c rfl]
    simp

theorem mem_stripCh {c : Char} {cs : List Char} (h : c ∈ stripCh cs) : c ∈ cs := by
  unfold stripCh trimLeftCh at h
  have h1 : c ∈ (cs.reverse.dropWhile isSpaceCh).reverse :=
    (List.dropWhile_sublist _).subset h
  rw [List.mem_reverse] at h1
  have h2 : c ∈ cs.reverse := (List.dropWhile_sublist _).subset h1
  rwa [List.mem_reverse] at h2

theorem stripCh_head {cs : List Char} {c : Char}
    (h : (stripCh cs).head? = some c) : isSpaceCh c = false := by
  unfold stripCh trimLeftCh at h
  have := List.head?_dropWhile_not isSpaceCh ((cs.reverse.dropWhile isSpaceCh).reverse)
  rw [h] at this
  exact this

theorem stripCh_getLast {cs : List Char} {c : Char}
    (h : (stripCh cs).getLast? = some c) : isSpaceCh c = false := by
  unfold stripCh trimLeftCh at h
  set a := cs.reverse.dropWhile isSpaceCh with ha
  set z := a.reverse with hz
  obtain ⟨w, hw⟩ := List.dropWhile_suffix (l := z) isSpaceCh
  have hgz : z.getLast? = some c := by
    rw [← hw, List.getLast?_append, h]
    rfl
  rw [hz, List.getLast?_reverse] at hgz
  have := List.head?_dropWhile_not isSpaceCh cs.reverse
  rw [← ha, hgz] at this
  exact this

theorem stripCh_idem (cs : List Char) : stripCh (stripCh cs) = stripCh cs := by
  conv_lhs => rw [stripCh]
  have hgl : trimLeftCh (stripCh cs).reverse = (stripCh cs).reverse := by
    apply dropWhile_eq_self_of_head
    intro c hc
    rw [List.head?_reverse] at hc
    exact stripCh_getLast hc
  rw [hgl, List.reverse_reverse]
  apply dropWhile_eq_self_of_head
  intro c hc
  exact stripCh_head hc

theorem normChars_ascii_not_lower {cs : List Char} (h : ∀ c ∈ cs, c.toNat < 128) :
    ∀ c ∈ normChars cs, c.toNat < 128 ∧ ¬(97 ≤ c.toNat ∧ c.toNat ≤ 122) := by
  intro c hc
  have hu : ∀ x ∈ cs.map upperCh, x.toNat < 128 ∧ ¬(97 ≤ x.toNat ∧ x.toNat ≤ 122) := by
    intro x hx
    obtain ⟨c₀, hc₀, rfl⟩ := List.mem_map.mp hx
    exact upperCh_ascii (h c₀ hc₀)
  have hd : ∀ x ∈ (cs.map upperCh).dropWhile isDigitCh,
      x.toNat < 128 ∧ ¬(97 ≤ x.toNat ∧ x.toNat ≤ 122) := by
    intro x hx
    exact hu x ((List.dropWhile_sublist _).subset hx)
  unfold normChars at hc
  rw [unidec_ascii (fun x hx => (hd x hx).1)] at hc
  exact hd c (mem_stripCh hc)

theorem normChars_self {cs : List Char}
    (hascii : ∀ c ∈ normChars cs, c.toNat < 128 ∧ ¬(97 ≤ c.toNat ∧ c.toNat ≤ 122))
    (hhead : ∀ c, (normChars cs).head? = some c → isDigitCh c = false) :
    normChars (normChars cs) = normChars cs := by
  conv_lhs => rw [normChars]
  rw [map_eq_self_of (fun c hc => upperCh_fix (hascii c hc).1 (hascii c hc).2)]
  rw [dropWhile_eq_self_of_head hhead]
  rw [unidec_ascii (fun c hc => (hascii c hc).1)]
  conv_lhs => rw [normChars]
  exact stripCh_idem _

/-! ## Claim C2: idempotence of the text normalizer -/

/-- C2 (counterexample): the normalizer is not idempotent.  On the ASCII
input `"12 34AB"` the first pass removes the leading digit run `"12"` and
trims the space, exposing `"34AB"`; the second pass then strips `"34"` as a
new leading digit run, so `normalize(normalize(x)) ≠ normalize(x)`. -/
theorem claim2_counterexample :
    normalize_text "12 34AB" = "34AB" ∧
    normalize_text (normalize_text "12 34AB") = "AB" ∧
    normalize_text (normalize_text "12 34AB") ≠ normalize_text "12 34AB" := by
  refine ⟨by decide, by decide, by decide⟩

/-- C2 (amended): on ASCII input the normalizer is idempotent exactly when
its first pass does not leave a string that starts with an ASCII digit;
the claim fails only on inputs where trimming (or transliteration) exposes
a fresh leading digit run. -/
theorem claim2_idempotent_unless_digit_head (s : String)
    (hascii : ∀ c ∈ s.data, c.toNat < 128)
    (hhead : ∀ c, (normalize_text s).data.head? = some c → isDigitCh c = false) :
    normalize_text (normalize_text s) = normalize_text s := by
  show (⟨normChars (normalize_text s).data⟩ : String) = normalize_text s
  have hdata : (normalize_text s).data = normChars s.data := rfl
  rw [hdata] at hhead ⊢
  rw [normChars_self (normChars_ascii_not_lower hascii) hhead]
  rfl

/-- C2 (witness): the amended idempotence at a concrete normalized-safe
input. -/
theorem claim2_witness :
    normalize_text (normalize_text "02132  Database Systems ") =
      normalize_text "02132  Database Systems " :=
  claim2_idempotent_unless_digit_head "02132  Database Systems "
    (by decide) (by decide)

/-! ## Claim C1: the course-code canonicalizer -/

theorem mem_dedupFirstAux {α : Type} [DecidableEq α] {a : α} :
    ∀ (l seen : List α), a ∈ dedupFirstAux seen l ↔ a ∈ l ∧ a ∉ seen := by
  intro l
  induction l with
  | nil => intro seen; simp [dedupFirstAux]
  | cons c cs ih =>
    intro seen
    rw [dedupFirstAux]
    by_cases hc : c ∈ seen
    · rw [if_pos hc, ih]
      constructor
      · rintro ⟨h1, h2⟩
        exact ⟨List.mem_cons_of_mem c h1, h2⟩
      · rintro ⟨h1, h2⟩
        rcases List.mem_cons.mp h1 with rfl | h1
        · exact absurd hc h2
        · exact ⟨h1, h2⟩
    · rw [if_neg hc]
      constructor
      · intro h1
        rcases List.mem_cons.mp h1 with rfl | h1
        · exact ⟨List.mem_cons_self _ _, hc⟩
        · rcases (ih (c :: seen)).mp h1 with ⟨h2, h3⟩
          exact ⟨List.mem_cons_of_mem c h2, fun hs => h3 (List.mem_cons_of_mem c hs)⟩
      · rintro ⟨h1, h2⟩
        rcases List.mem_cons.mp h1 with rfl | h1
        · exact List.mem_cons_self _ _
        · by_cases hac : a = c
          · rw [hac]; exact List.mem_cons_self _ _
          · refine List.mem_cons_of_mem c ((ih (c :: seen)).mpr ⟨h1, ?_⟩)
            intro hs
            rcases List.mem_cons.mp hs with h | h
            · exact hac h
            · exact h2 h

theorem mem_dedupFirst {α : Type} [DecidableEq α] {a : α} {l : List α} :
    a ∈ dedupFirst l ↔ a ∈ l := by
  rw [dedupFirst, mem_dedupFirstAux]
  simp

theorem all_eq_of_dedupFirst_short {α : Type} [DecidableEq α] {l : List α}
    (h : (dedupFirst l).length ≤ 1) : ∀ a ∈ l, ∀ b ∈ l, a = b := by
  intro a ha b hb
  have ha' : a ∈ dedupFirst l := mem_dedupFirst.mpr ha
  have hb' : b ∈ dedupFirst l := mem_dedupFirst.mpr hb
  match hd : dedupFirst l with
  | [] => rw [hd] at ha'; exact absurd ha' (List.not_mem_nil a)
  | [x] =>
    rw [hd] at ha' hb'
    rw [List.mem_singleton.mp ha', List.mem_singleton.mp hb']
  | x :: y :: rest =>
    rw [hd] at h
    simp at h

theorem codeCount_pos_mem {cs : List String} {c : String}
    (h : 0 < codeCount cs c) : c ∈ cs := by
  unfold codeCount at h
  rw [List.length_pos] at h
  obtain ⟨x, hx⟩ := List.exists_mem_of_ne_nil _ h
  have := List.mem_filter.mp hx
  rcases this with ⟨hmem, hbeq⟩
  rwa [← eq_of_beq hbeq]

theorem codeCount_self_pos {cs : List String} {c : String} (h : c ∈ cs) :
    0 < codeCount cs c := by
  unfold codeCount
  rw [List.length_pos]
  intro hnil
  have : c ∈ cs.filter (fun x => x == c) := List.mem_filter.mpr ⟨h, by simp⟩
  rw [hnil] at this
  exact absurd this (List.not_mem_nil c)

theorem foldl_max_inv (cs : List String) :
    ∀ (ds : List String) (b : String),
      codeCount cs b ≤
        codeCount cs (ds.foldl (fun best c =>
          if codeCount cs best < codeCount cs c then c else best) b) ∧
      ∀ c ∈ ds, codeCount cs c ≤
        codeCount cs (ds.foldl (fun best c =>
          if codeCount cs best < codeCount cs c then c else best) b) := by
  intro ds
  induction ds with
  | nil => intro b; simp
  | cons d ds ih =>
    intro b
    rw [List.foldl_cons]
    by_cases h : codeCount cs b < codeCount cs d
    · rw [if_pos h]
      refine ⟨le_trans (le_of_lt h) (ih d).1, ?_⟩
      intro c hc
      rcases List.mem_cons.mp hc with rfl | hc
      · exact (ih c).1
      · exact (ih d).2 c hc
    · rw [if_neg h]
      refine ⟨(ih b).1, ?_⟩
      intro c hc
      rcases List.mem_cons.mp hc with rfl | hc
      · exact le_trans (Nat.le_of_not_lt h) (ih b).1
      · exact (ih b).2 c hc

theorem modalCode_max {cs : List String} {c : String} (h : c ∈ cs) :
    codeCount cs c ≤ codeCount cs (modalCode cs) := by
  unfold modalCode
  exact (foldl_max_inv cs (dedupFirst cs) "").2 c (mem_dedupFirst.mpr h)

theorem modalCode_mem {cs : List String} (h : cs ≠ []) : modalCode cs ∈ cs := by
  obtain ⟨c, hc⟩ := List.exists_mem_of_ne_nil _ h
  exact codeCount_pos_mem (lt_of_lt_of_le (codeCount_self_pos hc) (modalCode_max hc))

theorem rowKey_rewriteRow (l : List NRow) (r : NRow) :
    rowKey (rewriteRow l r) = rowKey r := by
  unfold rewriteRow
  split <;> rfl

theorem mem_canonicalize {l : List NRow} {r : NRow} (h : r ∈ canonicalize l) :
    ∃ r₀ ∈ l, r = rewriteRow l r₀ := by
  unfold canonicalize at h
  split at h
  · rw [mem_dedupFirst] at h
    obtain ⟨r₀, hr₀, hrw⟩ := List.mem_map.mp h
    exact ⟨r₀, hr₀, hrw.symm⟩
  · rename_i hany
    refine ⟨r, h, ?_⟩
    rw [Bool.not_eq_true, List.any_eq_false] at hany
    unfold rewriteRow
    rw [if_neg]
    intro hdup
    exact (hany r h) hdup

theorem self_mem_keyGroup {l : List NRow} {r : NRow} (h : r ∈ l) :
    r ∈ keyGroup l (rowKey r) :=
  List.mem_filter.mpr ⟨h, by simp⟩

theorem kurskode_mem_groupCodes {l : List NRow} {r : NRow} (h : r ∈ l) :
    r.kurskode ∈ groupCodes l (rowKey r) :=
  List.mem_map.mpr ⟨r, self_mem_keyGroup h, rfl⟩

/-- C1: after the canonicalizer, (i) every record of a multi-code
`(course_text, credits)` group carries the group's single chosen code, a
code that occurred in the group and whose occurrence count is maximal in
that group; (ii) records of single-code groups pass through unchanged
("untouched" = neither their code nor any other field is rewritten); and
(iii) consequently any two output records with equal `(course_text,
credits)` carry equal course codes. -/
theorem claim1_canonicalizer (l : List NRow) :
    (∀ r ∈ canonicalize l, isDupKey l (rowKey r) = true →
      r.kurskode = modalCode (groupCodes l (rowKey r)) ∧
      r.kurskode ∈ groupCodes l (rowKey r) ∧
      ∀ c ∈ groupCodes l (rowKey r),
        codeCount (groupCodes l (rowKey r)) c ≤
          codeCount (groupCodes l (rowKey r)) r.kurskode) ∧
    (∀ r ∈ canonicalize l, isDupKey l (rowKey r) = false → r ∈ l) ∧
    (∀ r1 ∈ canonicalize l, ∀ r2 ∈ canonicalize l,
      rowKey r1 = rowKey r2 → r1.kurskode = r2.kurskode) := by
  have hcode : ∀ r ∈ canonicalize l, isDupKey l (rowKey r) = true →
      r.kurskode = modalCode (groupCodes l (rowKey r)) := by
    intro r hr hdup
    obtain ⟨r₀, hr₀, rfl⟩ := mem_canonicalize hr
    rw [rowKey_rewriteRow] at hdup ⊢
    unfold rewriteRow
    rw [if_pos hdup]
  have huntouched : ∀ r ∈ canonicalize l, isDupKey l (rowKey r) = false → r ∈ l := by
    intro r hr hdup
    obtain ⟨r₀, hr₀, rfl⟩ := mem_canonicalize hr
    rw [rowKey_rewriteRow] at hdup
    unfold rewriteRow
    rw [if_neg (by rw [hdup]; exact Bool.false_ne_true)]
    exact hr₀
  refine ⟨?_, huntouched, ?_⟩
  · intro r hr hdup
    refine ⟨hcode r hr hdup, ?_, ?_⟩
    · rw [hcode r hr hdup]
      apply modalCode_mem
      obtain ⟨r₀, hr₀, rfl⟩ := mem_canonicalize hr
      rw [rowKey_rewriteRow]
      intro hnil
      have := kurskode_mem_groupCodes hr₀
      rw [hnil] at this
      exact absurd this (List.not_mem_nil _)
    · intro c hc
      rw [hcode r hr hdup]
      exact modalCode_max hc
  · intro r1 hr1 r2 hr2 hkey
    by_cases hdup : isDupKey l (rowKey r1) = true
    · rw [hcode r1 hr1 hdup, hcode r2 hr2 (hkey ▸ hdup), hkey]
    · rw [Bool.not_eq_true] at hdup
      have h1 : r1 ∈ l := huntouched r1 hr1 hdup
      have h2 : r2 ∈ l := huntouched r2 hr2 (hkey ▸ hdup)
      have hc1 : r1.kurskode ∈ groupCodes l (rowKey r1) := kurskode_mem_groupCodes h1
      have hc2 : r2.kurskode ∈ groupCodes l (rowKey r1) := by
        rw [hkey]; exact kurskode_mem_groupCodes h2
      have hshort : (dedupFirst (groupCodes l (rowKey r1))).length ≤ 1 := by
        unfold isDupKey at hdup
        rw [decide_eq_false_iff_not] at hdup
        omega
      exact all_eq_of_dedupFirst_short hshort _ hc1 _ hc2

/-- C1 (witness): the canonicalizer theorem applied to a concrete table
with one multi-code group and one single-code group. -/
theorem claim1_witness :
    (⟨"s1", "CA", "X", "7", "7t", "5", "W", "E", "01/05/2020"⟩ : NRow) ∈
      canonicalize
        [⟨"s1", "CA", "X", "7", "7t", "5", "W", "E", "01/05/2020"⟩,
         ⟨"s1", "CB", "X", "7", "7t", "5", "W", "E", "01/06/2020"⟩,
         ⟨"s1", "CA", "X", "7", "7t", "5", "W", "E", "01/07/2020"⟩,
         ⟨"s1", "CC", "Y", "7", "7t", "5", "W", "E", "01/08/2020"⟩] ∧
    (⟨"s1", "CA", "X", "7", "7t", "5", "W", "E", "01/06/2020"⟩ : NRow) ∈
      canonicalize
        [⟨"s1", "CA", "X", "7", "7t", "5", "W", "E", "01/05/2020"⟩,
         ⟨"s1", "CB", "X", "7", "7t", "5", "W", "E", "01/06/2020"⟩,
         ⟨"s1", "CA", "X", "7", "7t", "5", "W", "E", "01/07/2020"⟩,
         ⟨"s1", "CC", "Y", "7", "7t", "5", "W", "E", "01/08/2020"⟩] ∧
    (⟨"s1", "CA", "X", "7", "7t", "5", "W", "E", "01/05/2020"⟩ : NRow).kurskode =
      (⟨"s1", "CA", "X", "7", "7t", "5", "W", "E", "01/06/2020"⟩ : NRow).kurskode := by
  refine ⟨by decide, by decide, ?_⟩
  exact (claim1_canonicalizer
      [⟨"s1", "CA", "X", "7", "7t", "5", "W", "E", "01/05/2020"⟩,
       ⟨"s1", "CB", "X", "7", "7t", "5", "W", "E", "01/06/2020"⟩,
       ⟨"s1", "CA", "X", "7", "7t", "5", "W", "E", "01/07/2020"⟩,
       ⟨"s1", "CC", "Y", "7", "7t", "5", "W", "E", "01/08/2020"⟩]).2.2
    _ (by decide) _ (by decide) (by decide)

/-! ## Claim C6: the date normalizer and semester labeler -/

theorem parseDMY_valid {s : String} {d m y : Nat} (h : parseDMY s = some (d, m, y)) :
    1 ≤ m ∧ m ≤ 12 ∧ 1 ≤ d ∧ d ≤ daysInMonth y m := by
  unfold parseDMY at h
  split at h
  · split at h
    · split at h
      · rename_i hcond
        injection h with h'
        cases h'
        exact hcond.2.2.2
      · exact absurd h (by simp)
    · exact absurd h (by simp)
  · exact absurd h (by simp)

/-- C6: a grading date parsed from `dd/mm/yyyy` is reformatted to ISO
`yyyy-mm-dd`, and the semester labeler maps months 1–4 and 10–12 to
`"Fall <year>"` and months 5–9 to `"Spring <year>"`, always using the
date's own calendar year. -/
theorem claim6_semester_labeler (s : String) (d m y : Nat)
    (hp : parseDMY s = some (d, m, y)) :
    convertDate s = .ok (fmtISO y m d) ∧
    ((m ≤ 4 ∨ 10 ≤ m) →
      get_semester (fmtISO y m d) = .ok ("Fall " ++ natToStr y)) ∧
    (5 ≤ m → m ≤ 9 →
      get_semester (fmtISO y m d) = .ok ("Spring " ++ natToStr y)) := by
  obtain ⟨hm1, hm2, hd1, hd2⟩ := parseDMY_valid hp
  refine ⟨?_, ?_, ?_⟩
  · unfold convertDate
    rw [hp]
  · intro hfall
    unfold get_semester
    rw [parseISO_fmtISO hm1 hm2 hd1 hd2]
    show Except.ok ((if m ≤ 4 ∨ 10 ≤ m then "Fall" else "Spring") ++ " " ++ natToStr y) = _
    rw [if_pos hfall]
    show (Except.ok (⟨'F' :: 'a' :: 'l' :: 'l' :: ' ' :: natDigits y⟩ : String) : Except String String) =
      Except.ok ("Fall " ++ natToStr y)
    rfl
  · intro hs1 hs2
    unfold get_semester
    rw [parseISO_fmtISO hm1 hm2 hd1 hd2]
    show Except.ok ((if m ≤ 4 ∨ 10 ≤ m then "Fall" else "Spring") ++ " " ++ natToStr y) = _
    rw [if_neg (by omega : ¬(m ≤ 4 ∨ 10 ≤ m))]
    show (Except.ok (⟨'S' :: 'p' :: 'r' :: 'i' :: 'n' :: 'g' :: ' ' :: natDigits y⟩ : String) : Except String String) =
      Except.ok ("Spring " ++ natToStr y)
    rfl

/-- C6 (witness): the spec's own example, `"15/01/2023"`, becomes ISO
`"2023-01-15"` and is labeled `"Fall 2023"` (the date's own year). -/
theorem claim6_witness :
    convertDate "15/01/2023" = .ok "2023-01-15" ∧
    get_semester "2023-01-15" = .ok "Fall 2023" := by
  have h := claim6_semester_labeler "15/01/2023" 15 1 2023 (by decide)
  exact ⟨h.1, h.2.1 (Or.inl (by omega))⟩

/-! ## Claim C5: the semester-date aligner -/

theorem alignGroup_ok {g0 : List LRow} {out : List ARow}
    (h : alignGroup g0 = .ok out) :
    (g0 = [] → out = []) ∧
    (∀ r0, g0.head? = some r0 → ∃ y m d,
      parseISO r0.bedommelsesdato = some (y, m, d) ∧
      out = g0.map (fun r => mkARow r
        (if containsSub r0.semester.data "Spring".data
         then fmtISO y 6 1 else fmtISO y 12 1))) := by
  unfold alignGroup at h
  split at h
  · split at h
    · injection h with h'
      refine ⟨fun _ => h'.symm, ?_⟩
      intro r0 hr0
      exact absurd hr0 (by simp)
    · rename_i r0 rest hcond
      split at h
      · rename_i y m2 d2 hpi
        injection h with h'
        refine ⟨fun hnil => by simp at hnil, ?_⟩
        intro r0' hr0'
        have hre : r0' = r0 := by
          rw [List.head?_cons] at hr0'
          injection hr0' with h''
          exact h''.symm
        rw [hre]
        exact ⟨y, m2, d2, hpi, h'.symm⟩
      · exact absurd h (by simp)
  · exact absurd h (by simp)

theorem alignConcat_mem {l : List LRow} :
    ∀ {ks : List (String × String)} {g : List ARow},
      alignConcat l ks = .ok g → ∀ r ∈ g, ∃ k, ∃ out,
        alignGroup (l.filter (fun x => lKey x == k)) = .ok out ∧ r ∈ out := by
  intro ks
  induction ks with
  | nil =>
    intro g h r hr
    injection h with h'
    rw [← h'] at hr
    exact absurd hr (List.not_mem_nil r)
  | cons k ks ih =>
    intro g h r hr
    rw [alignConcat] at h
    cases h1 : alignGroup (l.filter (fun x => lKey x == k)) with
    | error e => rw [h1] at h; exact absurd h (by simp [Except.bind])
    | ok g1 =>
      rw [h1] at h
      simp only [Except.bind] at h
      cases h2 : alignConcat l ks with
      | error e => rw [h2] at h; exact absurd h (by simp [Except.map])
      | ok g2 =>
        rw [h2] at h
        simp only [Except.map] at h
        injection h with h'
        rw [← h'] at hr
        rcases List.mem_append.mp hr with hr1 | hr2
        · exact ⟨k, g1, h1, hr1⟩
        · exact ih h2 r hr2

theorem mkARow_fields (r : LRow) (e : String) :
    (mkARow r e).studienr = r.studienr ∧ (mkARow r e).semester = r.semester ∧
    (mkARow r e).semesterEnd = e :=
  ⟨rfl, rfl, rfl⟩

/-- The shape of every output row of the aligner: its `SEMESTER_END` is
June 1 (label containing "Spring") or December 1 (otherwise) of the year
of the first grading date of its own `(student, semester)` group. -/
theorem alignStage_shape {l : List LRow} {g : List ARow}
    (h : alignStage l = .ok g) :
    ∀ r ∈ g, ∃ r0 y m d,
      (l.filter (fun x => lKey x == (r.studienr, r.semester))).head? = some r0 ∧
      parseISO r0.bedommelsesdato = some (y, m, d) ∧
      r.semesterEnd = (if containsSub r.semester.data "Spring".data
        then fmtISO y 6 1 else fmtISO y 12 1) := by
  intro r hr
  obtain ⟨k, out, hok, hrout⟩ := alignConcat_mem h r hr
  cases hk : l.filter (fun x => lKey x == k) with
  | nil =>
    rw [hk] at hok
    rw [(alignGroup_ok hok).1 rfl] at hrout
    exact absurd hrout (List.not_mem_nil _)
  | cons r0 rest =>
    rw [hk] at hok
    obtain ⟨y, m, d, hpi, hout⟩ := (alignGroup_ok hok).2 r0 rfl
    rw [hout] at hrout
    obtain ⟨x, hxmem, hxeq⟩ := List.mem_map.mp hrout
    have hxfil : x ∈ l.filter (fun x => lKey x == k) := by rw [hk]; exact hxmem
    have hr0fil : r0 ∈ l.filter (fun x => lKey x == k) := by
      rw [hk]; exact List.mem_cons_self _ _
    have hxkey : lKey x = k := eq_of_beq (List.mem_filter.mp hxfil).2
    have hr0key : lKey r0 = k := eq_of_beq (List.mem_filter.mp hr0fil).2
    have hstud : r.studienr = x.studienr := by rw [← hxeq]; rfl
    have hsem : r.semester = x.semester := by rw [← hxeq]; rfl
    have hsemr0 : r0.semester = x.semester := by
      have h1 : lKey r0 = lKey x := by rw [hr0key, hxkey]
      exact congrArg Prod.snd h1
    have hkeyeq : (r.studienr, r.semester) = k := by
      rw [hstud, hsem, ← hxkey]; rfl
    refine ⟨r0, y, m, d, ?_, hpi, ?_⟩
    · rw [hkeyeq, hk]
      rfl
    · have hend : r.semesterEnd = (if containsSub r0.semester.data "Spring".data
          then fmtISO y 6 1 else fmtISO y 12 1) := by
        rw [← hxeq]
        rfl
      rw [hend, hsemr0, hsem]

/-- C5: within every `(student, semester-label)` group the aligner assigns
one identical `SEMESTER_END` value: June 1 of the group's year when the
label contains "Spring", else December 1, the year being taken from the
group's (first) grading date. -/
theorem claim5_aligner (l : List LRow) (g : List ARow)
    (h : alignStage l = .ok g) :
    (∀ r ∈ g, ∃ r0 y m d,
      (l.filter (fun x => lKey x == (r.studienr, r.semester))).head? = some r0 ∧
      parseISO r0.bedommelsesdato = some (y, m, d) ∧
      r.semesterEnd = (if containsSub r.semester.data "Spring".data
        then fmtISO y 6 1 else fmtISO y 12 1)) ∧
    (∀ r1 ∈ g, ∀ r2 ∈ g, r1.studienr = r2.studienr →
      r1.semester = r2.semester → r1.semesterEnd = r2.semesterEnd) := by
  refine ⟨alignStage_shape h, ?_⟩
  intro r1 hr1 r2 hr2 hstud hsem
  obtain ⟨r0, y, m, d, hh1, hp1, he1⟩ := alignStage_shape h r1 hr1
  obtain ⟨r0', y', m', d', hh2, hp2, he2⟩ := alignStage_shape h r2 hr2
  rw [← hstud, ← hsem] at hh2
  rw [hh1] at hh2
  injection hh2 with hh2
  rw [← hh2] at hp2
  rw [hp1] at hp2
  injection hp2 with hp2
  have hy : y = y' := congrArg Prod.fst hp2
  rw [he1, he2, ← hy, ← hsem]

/-- C5 (witness): the aligner theorem, fully instantiated at a concrete
two-row semester group: both rows receive the identical end date. -/
theorem claim5_witness :
    (⟨"s1", "CA", "X", "7", "7t", "5", "W", "E", "2020-05-01",
        "Spring 2020", "2020-06-01"⟩ : ARow).semesterEnd =
    (⟨"s1", "CB", "Y", "7", "7t", "5", "W", "E", "2020-06-15",
        "Spring 2020", "2020-06-01"⟩ : ARow).semesterEnd :=
  (claim5_aligner
    [⟨"s1", "CA", "X", "7", "7t", "5", "W", "E", "2020-05-01", "Spring 2020"⟩,
     ⟨"s1", "CB", "Y", "7", "7t", "5", "W", "E", "2020-06-15", "Spring 2020"⟩]
    _ rfl).2
    ⟨"s1", "CA", "X", "7", "7t", "5", "W", "E", "2020-05-01",
        "Spring 2020", "2020-06-01"⟩ (by decide)
    ⟨"s1", "CB", "Y", "7", "7t", "5", "W", "E", "2020-06-15",
        "Spring 2020", "2020-06-01"⟩ (by decide) rfl rfl

/-! ## Claim C3: the attempt counter -/

/-- Input for the attempt-counter analysis: one student of the target
program with a repeated course "CA" taken in Spring 2020 and Fall 2021
(input given in chronological order), plus a third row to pass the
activity filter. -/
def attemptEx : List RawRow :=
  [⟨"s1", "Softwareteknologi, ing.prof.bach.", "CA", some "ALPHA", "7", "7t",
      "5", "W", "E", "01/05/2020"⟩,
   ⟨"s1", "Softwareteknologi, ing.prof.bach.", "CA", some "ALPHA", "7", "7t",
      "5", "W", "E", "01/11/2021"⟩,
   ⟨"s1", "Softwareteknologi, ing.prof.bach.", "CB", some "BETA", "7", "7t",
      "5", "W", "E", "01/11/2021"⟩]

/-- C3 (counterexample): attempt numbers do not follow chronological
order.  The semester-alignment `groupby` reorders rows by the
lexicographic semester label ("Fall 2021" sorts before "Spring 2020"), so
the student's later Fall-2021 record of course "CA" receives attempt 1
while the earlier Spring-2020 record receives attempt 2. -/
theorem claim3_counterexample :
    ∃ out, pipeline attemptEx = Except.ok out ∧
      ∃ r1 ∈ out, ∃ r2 ∈ out,
        r1.studienr = r2.studienr ∧ r1.kurskode = r2.kurskode ∧
        parseISO r1.bedommelsesdato = some (2020, 5, 1) ∧
        parseISO r2.bedommelsesdato = some (2021, 11, 1) ∧
        r2.attempt < r1.attempt := by
  refine ⟨_, rfl, ?_⟩
  decide

theorem attachAttempts_filter (k : String × String) :
    ∀ (l seen : List ARow),
      ((attachAttempts seen l).filter
          (fun r => (r.studienr, r.kurskode) == k)).map (fun r => r.attempt) =
        List.range' ((seen.filter (fun r => aKey r == k)).length + 1)
          ((l.filter (fun r => aKey r == k)).length) := by
  intro l
  induction l with
  | nil => intro seen; rfl
  | cons r rs ih =>
    intro seen
    rw [attachAttempts, List.filter_cons, List.filter_cons]
    have hpred : ∀ (n : Nat),
        (((mkFRow r n).studienr, (mkFRow r n).kurskode) == k) = (aKey r == k) :=
      fun _ => rfl
    rw [hpred]
    by_cases hk : (aKey r == k) = true
    · rw [if_pos hk, if_pos hk]
      have hak : aKey r = k := eq_of_beq hk
      rw [List.map_cons]
      have hseen : ((seen ++ [r]).filter (fun x => aKey x == k)).length =
          (seen.filter (fun x => aKey x == k)).length + 1 := by
        rw [List.filter_append]
        simp [hak]
      have hcnt : (seen.filter (fun x => aKey x == aKey r)).length =
          (seen.filter (fun x => aKey x == k)).length := by rw [hak]
      have hattempt : (mkFRow r ((seen.filter (fun x => aKey x == aKey r)).length + 1)).attempt =
          (seen.filter (fun x => aKey x == aKey r)).length + 1 := rfl
      rw [hattempt, hcnt, ih (seen ++ [r]), hseen, List.length_cons]
      rw [List.range'_succ]
    · rw [if_neg hk, if_neg hk]
      have hseen : ((seen ++ [r]).filter (fun x => aKey x == k)).length =
          (seen.filter (fun x => aKey x == k)).length := by
        rw [List.filter_append]
        simp [hk]
      rw [ih (seen ++ [r]), hseen]

/-- C3 (amended): the attempt counter numbers each `(student, course-code)`
group `1, 2, 3, …` in the table's row order at that pipeline position (the
order left behind by the semester-alignment `groupby`, i.e. sorted by the
lexicographic semester label), not in chronological date order: the
attempts of a group, read in row order, are exactly
`1, 2, …, group size`. -/
theorem claim3_attempts_in_row_order (l : List ARow) (k : String × String) :
    ((addAttempts l).filter
        (fun r => (r.studienr, r.kurskode) == k)).map (fun r => r.attempt) =
      List.range' 1 ((l.filter (fun r => aKey r == k)).length) :=
  attachAttempts_filter k l []

/-- C3 (witness): attempt numbers `1, 2` in row order at a concrete
two-attempt table. -/
theorem claim3_witness :
    ((addAttempts
        [⟨"s1", "CA", "X", "7", "7t", "5", "W", "E", "2021-11-01",
            "Fall 2021", "2021-12-01"⟩,
         ⟨"s1", "CA", "X", "7", "7t", "5", "W", "E", "2020-05-01",
            "Spring 2020", "2020-06-01"⟩]).filter
        (fun r => (r.studienr, r.kurskode) == ("s1", "CA"))).map
      (fun r => r.attempt) = [1, 2] :=
  claim3_attempts_in_row_order
    [⟨"s1", "CA", "X", "7", "7t", "5", "W", "E", "2021-11-01",
        "Fall 2021", "2021-12-01"⟩,
     ⟨"s1", "CA", "X", "7", "7t", "5", "W", "E", "2020-05-01",
        "Spring 2020", "2020-06-01"⟩] ("s1", "CA")

/-! ## Claim C8: the final sorter -/

theorem charEq_of_toNat {a b : Char} (h : a.toNat = b.toNat) : a = b := by
  apply Char.ext
  exact UInt32.toNat.inj h

theorem stringEq_of_data {a b : String} (h : a.data = b.data) : a = b :=
  congrArg String.mk h

theorem strLeB_refl : ∀ a, strLeB a a = true := by
  intro a
  induction a with
  | nil => rfl
  | cons x xs ih =>
    rw [strLeB, if_neg (Nat.lt_irrefl _), if_neg (Nat.lt_irrefl _)]
    exact ih

theorem strLtB_irrefl : ∀ a, strLtB a a = false := by
  intro a
  induction a with
  | nil => rfl
  | cons x xs ih =>
    rw [strLtB, if_neg (Nat.lt_irrefl _), if_neg (Nat.lt_irrefl _)]
    exact ih

theorem strLeB_total : ∀ a b, strLeB a b = true ∨ strLeB b a = true := by
  intro a
  induction a with
  | nil => intro b; left; rfl
  | cons x xs ih =>
    intro b
    cases b with
    | nil => right; rfl
    | cons y ys =>
      rw [strLeB, strLeB]
      by_cases h1 : x.toNat < y.toNat
      · left; rw [if_pos h1]
      · by_cases h2 : y.toNat < x.toNat
        · right; rw [if_pos h2]
        · rw [if_neg h1, if_neg h2, if_neg h2, if_neg h1]
          exact ih ys

theorem strLeB_trans : ∀ a b c, strLeB a b = true → strLeB b c = true →
    strLeB a c = true := by
  intro a
  induction a with
  | nil => intro b c _ _; rfl
  | cons x xs ih =>
    intro b c hab hbc
    cases b with
    | nil => rw [strLeB] at hab; exact absurd hab (by simp)
    | cons y ys =>
      cases c with
      | nil => rw [strLeB] at hbc; exact absurd hbc (by simp)
      | cons z zs =>
        rw [strLeB] at hab hbc ⊢
        by_cases h1 : x.toNat < y.toNat
        · by_cases h2 : y.toNat < z.toNat
          · rw [if_pos (by omega : x.toNat < z.toNat)]
          · rw [if_neg h2] at hbc
            by_cases h3 : z.toNat < y.toNat
            · rw [if_pos h3] at hbc; exact absurd hbc (by simp)
            · rw [if_pos (by omega : x.toNat < z.toNat)]
        · rw [if_neg h1] at hab
          by_cases h1' : y.toNat < x.toNat
          · rw [if_pos h1'] at hab; exact absurd hab (by simp)
          · rw [if_neg h1'] at hab
            by_cases h2 : y.toNat < z.toNat
            · rw [if_pos (by omega : x.toNat < z.toNat)]
            · rw [if_neg h2] at hbc
              by_cases h3 : z.toNat < y.toNat
              · rw [if_pos h3] at hbc; exact absurd hbc (by simp)
              · rw [if_neg h3] at hbc
                rw [if_neg (by omega : ¬x.toNat < z.toNat),
                  if_neg (by omega : ¬z.toNat < x.toNat)]
                exact ih ys zs hab hbc

theorem strLtB_trans : ∀ a b c, strLtB a b = true → strLtB b c = true →
    strLtB a c = true := by
  intro a
  induction a with
  | nil =>
    intro b c hab hbc
    cases b with
    | nil => exact absurd hab (by simp [strLtB])
    | cons y ys =>
      cases c with
      | nil => exact absurd hbc (by simp [strLtB])
      | cons z zs => rfl
  | cons x xs ih =>
    intro b c hab hbc
    cases b with
    | nil => rw [strLtB] at hab; exact absurd hab (by simp)
    | cons y ys =>
      cases c with
      | nil => rw [strLtB] at hbc; exact absurd hbc (by simp)
      | cons z zs =>
        rw [strLtB] at hab hbc ⊢
        by_cases h1 : x.toNat < y.toNat
        · by_cases h2 : y.toNat < z.toNat
          · rw [if_pos (by omega : x.toNat < z.toNat)]
          · rw [if_neg h2] at hbc
            by_cases h3 : z.toNat < y.toNat
            · rw [if_pos h3] at hbc; exact absurd hbc (by simp)
            · rw [if_pos (by omega : x.toNat < z.toNat)]
        · rw [if_neg h1] at hab
          by_cases h1' : y.toNat < x.toNat
          · rw [if_pos h1'] at hab; exact absurd hab (by simp)
          · rw [if_neg h1'] at hab
            by_cases h2 : y.toNat < z.toNat
            · rw [if_pos (by omega : x.toNat < z.toNat)]
            · rw [if_neg h2] at hbc
              by_cases h3 : z.toNat < y.toNat
              · rw [if_pos h3] at hbc; exact absurd hbc (by simp)
              · rw [if_neg h3] at hbc
                rw [if_neg (by omega : ¬x.toNat < z.toNat),
                  if_neg (by omega : ¬z.toNat < x.toNat)]
                exact ih ys zs hab hbc

theorem strLtB_trichotomy : ∀ a b, a = b ∨ strLtB a b = true ∨ strLtB b a = true := by
  intro a
  induction a with
  | nil =>
    intro b
    cases b with
    | nil => left; rfl
    | cons y ys => right; left; rfl
  | cons x xs ih =>
    intro b
    cases b with
    | nil => right; right; rfl
    | cons y ys =>
      by_cases h1 : x.toNat < y.toNat
      · right; left; rw [strLtB, if_pos h1]
      · by_cases h2 : y.toNat < x.toNat
        · right; right; rw [strLtB, if_pos h2]
        · have hxy : x = y := charEq_of_toNat (by omega)
          rcases ih ys with heq | hlt | hgt
          · left; rw [hxy, heq]
          · right; left; rw [strLtB, if_neg h1, if_neg h2]; exact hlt
          · right; right; rw [strLtB, if_neg h2, if_neg h1]; exact hgt

theorem strLtB_asymm {a b : List Char} (h : strLtB a b = true) :
    strLtB b a = false := by
  by_contra hcon
  rw [Bool.not_eq_false] at hcon
  have := strLtB_trans a b a h hcon
  rw [strLtB_irrefl] at this
  exact Bool.false_ne_true this

theorem tripLeB_refl (a : String × String × String) : tripLeB a a = true := by
  rw [tripLeB, if_pos rfl, if_pos rfl]
  exact strLeB_refl _

theorem tripLeB_total (a b : String × String × String) :
    tripLeB a b = true ∨ tripLeB b a = true := by
  rw [tripLeB, tripLeB]
  by_cases h1 : a.1 = b.1
  · rw [if_pos h1, if_pos h1.symm]
    by_cases h2 : a.2.1 = b.2.1
    · rw [if_pos h2, if_pos h2.symm]
      exact strLeB_total _ _
    · rw [if_neg h2, if_neg (fun e => h2 e.symm)]
      rcases strLtB_trichotomy a.2.1.data b.2.1.data with heq | hlt | hgt
      · exact absurd (stringEq_of_data heq) h2
      · left; exact hlt
      · right; exact hgt
  · rw [if_neg h1, if_neg (fun e => h1 e.symm)]
    rcases strLtB_trichotomy a.1.data b.1.data with heq | hlt | hgt
    · exact absurd (stringEq_of_data heq) h1
    · left; exact hlt
    · right; exact hgt

theorem tripLeB_trans (a b c : String × String × String)
    (hab : tripLeB a b = true) (hbc : tripLeB b c = true) :
    tripLeB a c = true := by
  rw [tripLeB] at hab hbc ⊢
  by_cases h1 : a.1 = b.1
  · rw [if_pos h1] at hab
    by_cases h2 : b.1 = c.1
    · rw [if_pos h2] at hbc
      rw [if_pos (h1.trans h2)]
      by_cases h3 : a.2.1 = b.2.1
      · rw [if_pos h3] at hab
        by_cases h4 : b.2.1 = c.2.1
        · rw [if_pos h4] at hbc
          rw [if_pos (h3.trans h4)]
          exact strLeB_trans _ _ _ hab hbc
        · rw [if_neg h4] at hbc
          rw [if_neg (fun e => h4 (h3 ▸ e)), h3]
          exact hbc
      · rw [if_neg h3] at hab
        by_cases h4 : b.2.1 = c.2.1
        · rw [if_neg (fun e => h3 (h4 ▸ e)), ← h4]
          exact hab
        · rw [if_neg h4] at hbc
          have hlt := strLtB_trans _ _ _ hab hbc
          rw [if_neg ?hne]
          · exact hlt
          case hne =>
            intro e
            rw [e] at hlt
            rw [strLtB_irrefl] at hlt
            exact Bool.false_ne_true hlt
    · rw [if_neg h2] at hbc
      rw [if_neg (fun e => h2 (h1 ▸ e)), h1]
      exact hbc
  · rw [if_neg h1] at hab
    by_cases h2 : b.1 = c.1
    · rw [if_neg (fun e => h1 (h2 ▸ e)), ← h2]
      exact hab
    · rw [if_neg h2] at hbc
      have hlt := strLtB_trans _ _ _ hab hbc
      rw [if_neg ?hne2]
      · exact hlt
      case hne2 =>
        intro e
        rw [e] at hlt
        rw [strLtB_irrefl] at hlt
        exact Bool.false_ne_true hlt

instance : IsTotal FRow fLe :=
  ⟨fun a b => tripLeB_total (fKey a) (fKey b)⟩

instance : IsTrans FRow fLe :=
  ⟨fun a b c => tripLeB_trans (fKey a) (fKey b) (fKey c)⟩

/-- C8: the final sort produces a permutation of its input that is
non-decreasing in the key `(student_id, course_code, semester_end_date)`,
and it is stable: for every key value, the subsequence of rows carrying
that key is exactly the same (same rows, same relative order) as in the
input. -/
theorem claim8_sorter (l : List FRow) :
    List.Perm (sortStage l) l ∧
    (sortStage l).Pairwise fLe ∧
    ∀ k : String × String × String,
      (sortStage l).filter (fun r => fKey r == k) =
        l.filter (fun r => fKey r == k) := by
  refine ⟨List.perm_insertionSort fLe l, List.sorted_insertionSort fLe l, ?_⟩
  intro k
  have hpw : (l.filter (fun r => fKey r == k)).Pairwise fLe := by
    apply List.pairwise_of_forall_mem_list
    intro a ha b hb
    have hka : fKey a = k := eq_of_beq (List.mem_filter.mp ha).2
    have hkb : fKey b = k := eq_of_beq (List.mem_filter.mp hb).2
    show tripLeB (fKey a) (fKey b) = true
    rw [hka, hkb]
    exact tripLeB_refl k
  have hsub : List.Sublist (l.filter (fun r => fKey r == k)) (sortStage l) :=
    List.sublist_insertionSort hpw (List.filter_sublist l)
  have hsub2 : List.Sublist
      ((l.filter (fun r => fKey r == k)).filter (fun r => fKey r == k))
      ((sortStage l).filter (fun r => fKey r == k)) :=
    List.Sublist.filter _ hsub
  rw [List.filter_filter] at hsub2
  have hself : (fun r => (fKey r == k) && (fKey r == k)) = (fun r => fKey r == k) := by
    funext r
    exact Bool.and_self _
  rw [hself] at hsub2
  have hlen : (l.filter (fun r => fKey r == k)).length =
      ((sortStage l).filter (fun r => fKey r == k)).length :=
    ((List.perm_insertionSort fLe l).filter _).length_eq.symm
  exact (hsub2.eq_of_length hlen).symm

/-! ## Claim C9: the cohort filter is not re-applicable -/

/-- A concrete loaded frame for the cohort-filter cell. -/
def cohortEx : CohortDF :=
  ⟨["STUDIENR", "UDDANNELSE", "KURSKODE", "KURSTXT", "BEDOMMELSE", "SKALA",
      "ECTS", "UDPROVNING", "CENSUR", "BEDOMMELSESDATO"],
    [⟨"s1", "Softwareteknologi, ing.prof.bach.", "CA", some "ALPHA", "7",
        "7t", "5", "W", "E", "01/05/2020"⟩,
     ⟨"s2", "Byggeteknologi", "CB", some "BETA", "7", "7t", "5", "W", "E",
        "01/05/2020"⟩]⟩

/-- The result of one application of the cohort filter to `cohortEx`. -/
def cohortEx1 : CohortDF :=
  ⟨["STUDIENR", "KURSKODE", "KURSTXT", "BEDOMMELSE", "SKALA",
      "ECTS", "UDPROVNING", "CENSUR", "BEDOMMELSESDATO"],
    [⟨"s1", "Softwareteknologi, ing.prof.bach.", "CA", some "ALPHA", "7",
        "7t", "5", "W", "E", "01/05/2020"⟩]⟩

/-- C9 (counterexample): the cohort filter is not idempotent, because its
first application drops the program column; re-applying it to its own
output raises `KeyError` (the program column no longer exists) instead of
being a no-op. -/
theorem claim9_counterexample :
    cohortFilterDF cohortEx = Except.ok cohortEx1 ∧
    cohortFilterDF cohortEx1 = Except.error "KeyError: UDDANNELSE" ∧
    cohortFilterDF cohortEx1 ≠ Except.ok cohortEx1 := by
  refine ⟨rfl, rfl, ?_⟩
  intro hcon
  have : (Except.error "KeyError: UDDANNELSE" : Except String CohortDF) =
      Except.ok cohortEx1 := hcon
  exact Except.noConfusion this

/-- C9 (amended): the row-selection half of the cohort filter is idempotent
— the surviving rows all satisfy the program predicate, so re-filtering
them is the identity — but the full stage also drops the program column,
so re-applying it to its own output does not succeed (it raises a
missing-column `KeyError`), hence it is not a no-op. -/
theorem claim9_filter_once (t t' : CohortDF)
    (hcol : t.cols.contains "UDDANNELSE" = true)
    (h : cohortFilterDF t = .ok t') :
    t'.rows.filter (fun r => r.uddannelse == targetProgram) = t'.rows ∧
    ∃ e, cohortFilterDF t' = .error e := by
  unfold cohortFilterDF at h
  rw [if_pos hcol] at h
  injection h with h'
  constructor
  · rw [← h']
    show (t.rows.filter (fun r => r.uddannelse == targetProgram)).filter
        (fun r => r.uddannelse == targetProgram) =
      t.rows.filter (fun r => r.uddannelse == targetProgram)
    rw [List.filter_filter]
    have : (fun r : RawRow => (r.uddannelse == targetProgram) &&
        (r.uddannelse == targetProgram)) =
        (fun r : RawRow => r.uddannelse == targetProgram) := by
      funext r
      exact Bool.and_self _
    rw [this]
  · refine ⟨"KeyError: UDDANNELSE", ?_⟩
    unfold cohortFilterDF
    rw [if_neg]
    rw [← h']
    show ¬((t.cols.filter (fun c => !(c == "UDDANNELSE"))).contains "UDDANNELSE" = true)
    intro hcon
    have hmem : "UDDANNELSE" ∈ t.cols.filter (fun c => !(c == "UDDANNELSE")) :=
      List.mem_of_elem_eq_true hcon
    have := (List.mem_filter.mp hmem).2
    simp at this

/-- C9 (witness): the amended statement at the concrete frame. -/
theorem claim9_witness :
    cohortEx1.rows.filter (fun r => r.uddannelse == targetProgram) =
      cohortEx1.rows ∧
    ∃ e, cohortFilterDF cohortEx1 = Except.error e :=
  claim9_filter_once cohortEx cohortEx1 (by decide) rfl

/-! ## Claim C7: missing course text -/

/-- An input whose student survives all filters and has one record with a
missing (NaN) course text. -/
def missingTextEx : List RawRow :=
  [⟨"s1", "Softwareteknologi, ing.prof.bach.", "CA", some "ALPHA", "7", "7t",
      "5", "W", "E", "01/05/2020"⟩,
   ⟨"s1", "Softwareteknologi, ing.prof.bach.", "CB", some "BETA", "7", "7t",
      "5", "W", "E", "01/11/2021"⟩,
   ⟨"s1", "Softwareteknologi, ing.prof.bach.", "CC", none, "7", "7t",
      "5", "W", "E", "01/11/2021"⟩]

/-- C7 (counterexample): a surviving row with missing course text does not
crash the institute-marker check — the row survives all three filters —
but the run does NOT complete: the text-normalization stage raises
`AttributeError` on the missing value, so no output is produced. -/
theorem claim7_counterexample :
    (∃ r ∈ instituteFilter (activityFilter (cohortRows missingTextEx)),
      r.kurstxt = none) ∧
    pipeline missingTextEx =
      Except.error "AttributeError: float object has no attribute upper" := by
  exact ⟨by decide, rfl⟩

theorem normalizeStage_error :
    ∀ (l : List Row), (∃ r ∈ l, r.kurstxt = none) →
      ∃ e, normalizeStage l = .error e := by
  intro l
  induction l with
  | nil =>
    rintro ⟨r, hr, _⟩
    exact absurd hr (List.not_mem_nil r)
  | cons x xs ih =>
    rintro ⟨r, hr, hnone⟩
    unfold normalizeStage
    rw [List.mapM_cons]
    cases hx : x.kurstxt with
    | none =>
      refine ⟨"AttributeError: float object has no attribute upper", ?_⟩
      have hxe : normalizeRow x =
          .error "AttributeError: float object has no attribute upper" := by
        unfold normalizeRow
        rw [hx]
      rw [hxe]
      rfl
    | some t =>
      rcases List.mem_cons.mp hr with rfl | hr'
      · rw [hx] at hnone
        exact absurd hnone (by simp)
      · obtain ⟨e, he⟩ := ih ⟨r, hr', hnone⟩
        refine ⟨e, ?_⟩
        have hxok : normalizeRow x = .ok ⟨x.studienr, x.kurskode,
            normalize_text t, x.bedommelse, x.skala, x.ects, x.udprovning,
            x.censur, x.bedommelsesdato⟩ := by
          unfold normalizeRow
          rw [hx]
        rw [hxok]
        unfold normalizeStage at he
        show (xs.mapM normalizeRow >>= fun ys => pure (_ :: ys)) = Except.error e
        rw [he]
        rfl

/-- C7 (amended): a missing course text is treated as non-matching by the
institute-marker check, and a student none of whose rows match the marker
keeps all rows through that filter — but the claim's no-crash half fails:
the subsequent text-normalization stage errors whenever a surviving row
has a missing course text, so the run does not complete. -/
theorem claim7_missing_text (l : List Row) (r : Row)
    (hr : r ∈ l) (hnone : r.kurstxt = none) :
    matchesMarker r = false ∧
    (∀ s, (∀ x ∈ l, x.studienr = s → matchesMarker x = false) →
      ∀ x ∈ l, x.studienr = s → x ∈ instituteFilter l) ∧
    ∃ e, normalizeStage l = .error e := by
  refine ⟨?_, ?_, normalizeStage_error l ⟨r, hr, hnone⟩⟩
  · unfold matchesMarker
    rw [hnone]
  · intro s hall x hx hxs
    unfold instituteFilter
    refine List.mem_filter.mpr ⟨hx, ?_⟩
    have hfalse : (instituteStuds l).contains x.studienr = false := by
      by_contra hcon
      rw [Bool.not_eq_false] at hcon
      have hmem : x.studienr ∈ instituteStuds l := List.mem_of_elem_eq_true hcon
      obtain ⟨y, hy, hystud⟩ := List.mem_map.mp hmem
      rcases List.mem_filter.mp hy with ⟨hymem, hymatch⟩
      have : matchesMarker y = false := hall y hymem (by rw [hystud, hxs])
      rw [this] at hymatch
      exact Bool.false_ne_true hymatch
    rw [hfalse]
    rfl

/-- C7 (witness): the amended statement at the concrete surviving table
containing a missing course text. -/
theorem claim7_witness :
    matchesMarker ⟨"s1", "CC", none, "7", "7t", "5", "W", "E",
        "01/11/2021"⟩ = false ∧
    (∀ s, (∀ x ∈ [(⟨"s1", "CA", some "ALPHA", "7", "7t", "5", "W", "E",
          "01/05/2020"⟩ : Row),
        ⟨"s1", "CC", none, "7", "7t", "5", "W", "E", "01/11/2021"⟩],
        x.studienr = s → matchesMarker x = false) →
      ∀ x ∈ [(⟨"s1", "CA", some "ALPHA", "7", "7t", "5", "W", "E",
          "01/05/2020"⟩ : Row),
        ⟨"s1", "CC", none, "7", "7t", "5", "W", "E", "01/11/2021"⟩],
        x.studienr = s →
        x ∈ instituteFilter
          [⟨"s1", "CA", some "ALPHA", "7", "7t", "5", "W", "E", "01/05/2020"⟩,
           ⟨"s1", "CC", none, "7", "7t", "5", "W", "E", "01/11/2021"⟩]) ∧
    ∃ e, normalizeStage
        [⟨"s1", "CA", some "ALPHA", "7", "7t", "5", "W", "E", "01/05/2020"⟩,
         ⟨"s1", "CC", none, "7", "7t", "5", "W", "E", "01/11/2021"⟩] =
      Except.error e :=
  claim7_missing_text
    [⟨"s1", "CA", some "ALPHA", "7", "7t", "5", "W", "E", "01/05/2020"⟩,
     ⟨"s1", "CC", none, "7", "7t", "5", "W", "E", "01/11/2021"⟩]
    ⟨"s1", "CC", none, "7", "7t", "5", "W", "E", "01/11/2021"⟩
    (by decide) rfl

/-! ## Claim C4: the activity-filter invariant -/

theorem mapM_except_spec {α β : Type} (f : α → Except String β) :
    ∀ {l : List α} {out : List β}, l.mapM f = .ok out →
      out.length = l.length ∧ ∀ b ∈ out, ∃ a ∈ l, f a = .ok b := by
  intro l
  induction l with
  | nil =>
    intro out h
    rw [List.mapM_nil] at h
    replace h : Except.ok ([] : List β) = Except.ok out := h
    injection h with h'
    rw [← h']
    exact ⟨rfl, fun b hb => absurd hb (List.not_mem_nil b)⟩
  | cons x xs ih =>
    intro out h
    rw [List.mapM_cons] at h
    cases hx : f x with
    | error e =>
      rw [hx] at h
      exact Except.noConfusion h
    | ok y =>
      rw [hx] at h
      replace h : (xs.mapM f >>= fun ys => pure (y :: ys)) = Except.ok out := h
      cases hxs : xs.mapM f with
      | error e =>
        rw [hxs] at h
        exact Except.noConfusion h
      | ok ys =>
        rw [hxs] at h
        replace h : Except.ok (y :: ys) = Except.ok out := h
        injection h with h'
        rw [← h']
        obtain ⟨hlen, hmem⟩ := ih hxs
        refine ⟨by rw [List.length_cons, hlen]; rfl, ?_⟩
        intro b hb
        rcases List.mem_cons.mp hb with rfl | hb'
        · exact ⟨x, List.mem_cons_self _ _, hx⟩
        · obtain ⟨a, ha, hfa⟩ := hmem b hb'
          exact ⟨a, List.mem_cons_of_mem x ha, hfa⟩

theorem normalizeRow_studienr {r : Row} {b : NRow}
    (h : normalizeRow r = .ok b) : b.studienr = r.studienr := by
  unfold normalizeRow at h
  cases hx : r.kurstxt with
  | none => rw [hx] at h; exact Except.noConfusion h
  | some t =>
    rw [hx] at h
    injection h with h'
    rw [← h']

theorem dateRow_studienr {r b : NRow} (h : dateRow r = .ok b) :
    b.studienr = r.studienr := by
  unfold dateRow at h
  cases hc : convertDate r.bedommelsesdato with
  | error e => rw [hc] at h; exact Except.noConfusion h
  | ok iso =>
    rw [hc] at h
    replace h : Except.ok { r with bedommelsesdato := iso } = Except.ok b := h
    injection h with h'
    rw [← h']

theorem labelRow_studienr {r : NRow} {b : LRow} (h : labelRow r = .ok b) :
    b.studienr = r.studienr := by
  unfold labelRow at h
  cases hc : get_semester r.bedommelsesdato with
  | error e => rw [hc] at h; exact Except.noConfusion h
  | ok sem =>
    rw [hc] at h
    replace h : Except.ok (⟨r.studienr, r.kurskode, r.kurstxt, r.bedommelse,
        r.skala, r.ects, r.udprovning, r.censur, r.bedommelsesdato, sem⟩ : LRow) =
      Except.ok b := h
    injection h with h'
    rw [← h']

theorem rewriteRow_studienr (l : List NRow) (r : NRow) :
    (rewriteRow l r).studienr = r.studienr := by
  unfold rewriteRow
  split <;> rfl

theorem alignStage_mem {l : List LRow} {g : List ARow}
    (h : alignStage l = .ok g) :
    ∀ r ∈ g, ∃ x ∈ l, r.studienr = x.studienr := by
  intro r hr
  obtain ⟨k, out, hok, hrout⟩ := alignConcat_mem h r hr
  cases hk : l.filter (fun x => lKey x == k) with
  | nil =>
    rw [hk] at hok
    rw [(alignGroup_ok hok).1 rfl] at hrout
    exact absurd hrout (List.not_mem_nil _)
  | cons r0 rest =>
    rw [hk] at hok
    obtain ⟨y, m, d, hpi, hout⟩ := (alignGroup_ok hok).2 r0 rfl
    rw [hout] at hrout
    obtain ⟨x, hxmem, hxeq⟩ := List.mem_map.mp hrout
    have hxl : x ∈ l := by
      have hxf : x ∈ l.filter (fun x => lKey x == k) := by
        rw [hk]; exact hxmem
      exact (List.mem_filter.mp hxf).1
    exact ⟨x, hxl, by rw [← hxeq]; rfl⟩

theorem attachAttempts_mem :
    ∀ (l seen : List ARow), ∀ r' ∈ attachAttempts seen l,
      ∃ x ∈ l, r'.studienr = x.studienr := by
  intro l
  induction l with
  | nil =>
    intro seen r' hr'
    exact absurd hr' (List.not_mem_nil r')
  | cons r rs ih =>
    intro seen r' hr'
    rw [attachAttempts] at hr'
    rcases List.mem_cons.mp hr' with rfl | hr''
    · exact ⟨r, List.mem_cons_self _ _, rfl⟩
    · obtain ⟨x, hx, hst⟩ := ih (seen ++ [r]) r' hr''
      exact ⟨x, List.mem_cons_of_mem r hx, hst⟩

theorem activityFilter_count {l : List Row} {r : Row}
    (h : r ∈ activityFilter l) :
    2 < countStud (activityFilter l) r.studienr := by
  have hmem := List.mem_filter.mp h
  have hcount : 2 < countStud l r.studienr := of_decide_eq_true hmem.2
  have heq : countStud (activityFilter l) r.studienr = countStud l r.studienr := by
    unfold countStud activityFilter
    rw [List.filter_filter]
    have hfe : List.filter (fun a =>
        a.studienr == r.studienr && decide (2 < countStud l a.studienr)) l =
        List.filter (fun a => a.studienr == r.studienr) l := by
      apply List.filter_congr
      intro x hx
      by_cases hxs : (x.studienr == r.studienr) = true
      · have hxeq : x.studienr = r.studienr := eq_of_beq hxs
        rw [hxs, Bool.true_and, hxeq]
        exact decide_eq_true hcount
      · rw [Bool.eq_false_iff.mpr hxs, Bool.false_and]
    rw [hfe]
  rw [heq]
  exact hcount

/-- Input refuting the claim: rows 1 and 2 of the single student differ
only in course code, so after canonicalization they become byte-identical
and `drop_duplicates` removes one of them, leaving the student with only
2 rows in the final output. -/
def dropBelowEx : List RawRow :=
  [⟨"s1", "Softwareteknologi, ing.prof.bach.", "CA", some "ALPHA", "7", "7t",
      "5", "W", "E", "01/05/2020"⟩,
   ⟨"s1", "Softwareteknologi, ing.prof.bach.", "CB", some "ALPHA", "7", "7t",
      "5", "W", "E", "01/05/2020"⟩,
   ⟨"s1", "Softwareteknologi, ing.prof.bach.", "CA", some "ALPHA", "7", "7t",
      "5", "W", "E", "01/11/2021"⟩]

/-- C4 (counterexample): the final output can contain a student with only
two rows: the canonicalizer's exact-duplicate removal runs after the
activity filter and can push a surviving student's row count to ≤ 2. -/
theorem claim4_counterexample :
    ∃ out, pipeline dropBelowEx = Except.ok out ∧
      ∃ r ∈ out, (out.filter (fun x => x.studienr == r.studienr)).length ≤ 2 := by
  refine ⟨_, rfl, ?_⟩
  decide

/-- C4 (amended): every student appearing in the final output had strictly
more than 2 rows at the activity-filter stage; the >2 bound holds there,
not necessarily in the final output, because the canonicalizer's
`drop_duplicates` can remove a surviving student's rows afterwards. -/
theorem claim4_activity_bound (input : List RawRow) (out : List FRow)
    (h : pipeline input = .ok out) :
    ∀ r ∈ out, 2 < countStud (activityFilter (cohortRows input)) r.studienr := by
  intro r hr
  unfold pipeline at h
  replace h : (normalizeStage (instituteFilter (activityFilter (cohortRows input)))).bind
      (fun l4 => (dateStage (canonicalize l4)).bind (fun l6 =>
        (labelStage l6).bind (fun l7 =>
          (alignStage l7).map (fun l8 => sortStage (addAttempts l8))))) =
      Except.ok out := h
  cases hn : normalizeStage (instituteFilter (activityFilter (cohortRows input))) with
  | error e => rw [hn] at h; exact Except.noConfusion h
  | ok l4 =>
    rw [hn] at h
    replace h : (dateStage (canonicalize l4)).bind (fun l6 =>
        (labelStage l6).bind (fun l7 =>
          (alignStage l7).map (fun l8 => sortStage (addAttempts l8)))) =
      Except.ok out := h
    cases hd : dateStage (canonicalize l4) with
    | error e => rw [hd] at h; exact Except.noConfusion h
    | ok l6 =>
      rw [hd] at h
      replace h : (labelStage l6).bind (fun l7 =>
          (alignStage l7).map (fun l8 => sortStage (addAttempts l8))) =
        Except.ok out := h
      cases hl : labelStage l6 with
      | error e => rw [hl] at h; exact Except.noConfusion h
      | ok l7 =>
        rw [hl] at h
        replace h : (alignStage l7).map (fun l8 => sortStage (addAttempts l8)) =
          Except.ok out := h
        cases ha : alignStage l7 with
        | error e => rw [ha] at h; exact Except.noConfusion h
        | ok l8 =>
          rw [ha] at h
          replace h : Except.ok (sortStage (addAttempts l8)) = Except.ok out := h
          injection h with h'
          rw [← h'] at hr
          have hr9 : r ∈ addAttempts l8 := by
            unfold sortStage at hr
            exact (List.mem_insertionSort fLe).mp hr
          obtain ⟨x8, hx8, hst8⟩ := attachAttempts_mem l8 [] r hr9
          obtain ⟨x7, hx7, hst7⟩ := alignStage_mem ha x8 hx8
          obtain ⟨x6, hx6, hfl⟩ := (mapM_except_spec labelRow hl).2 x7 hx7
          have hst6 : x7.studienr = x6.studienr := labelRow_studienr hfl
          obtain ⟨xc, hxc, hfd⟩ := (mapM_except_spec dateRow hd).2 x6 hx6
          have hst5 : x6.studienr = xc.studienr := dateRow_studienr hfd
          obtain ⟨x4, hx4, hxc4⟩ := mem_canonicalize hxc
          have hst4 : xc.studienr = x4.studienr := by
            rw [hxc4]
            exact rewriteRow_studienr l4 x4
          obtain ⟨x3, hx3, hf3⟩ := (mapM_except_spec normalizeRow hn).2 x4 hx4
          have hst3 : x4.studienr = x3.studienr := normalizeRow_studienr hf3
          have hx2 : x3 ∈ activityFilter (cohortRows input) :=
            (List.mem_filter.mp hx3).1
          have hbound := activityFilter_count hx2
          rw [hst8, hst7, hst6, hst5, hst4, hst3]
          exact hbound

/-- C4 (witness): the amended bound at a concrete run (the `dropBelowEx`
input, whose student has 3 > 2 rows at the activity filter even though
only 2 survive to the output). -/
theorem claim4_witness :
    2 < countStud (activityFilter (cohortRows dropBelowEx))
      (⟨"s1", "CA", "ALPHA", "7", "7t", "5", "W", "E", "2020-05-01",
          "Spring 2020", "2020-06-01", 2⟩ : FRow).studienr :=
  claim4_activity_bound dropBelowEx _ rfl
    ⟨"s1", "CA", "ALPHA", "7", "7t", "5", "W", "E", "2020-05-01",
        "Spring 2020", "2020-06-01", 2⟩ (by decide)

/-! ## Claim C10: duplicates survive when no group has multiple codes -/

theorem canonicalize_id {l : List NRow}
    (h : ∀ r ∈ l, isDupKey l (rowKey r) = false) :
    canonicalize l = l := by
  unfold canonicalize
  rw [if_neg]
  intro hcon
  rw [List.any_eq_true] at hcon
  obtain ⟨r, hr, hdup⟩ := hcon
  rw [h r hr] at hdup
  exact Bool.false_ne_true hdup

theorem alignGroup_length {g0 : List LRow} {out : List ARow}
    (h : alignGroup g0 = .ok out) : out.length = g0.length := by
  cases hg : g0 with
  | nil =>
    rw [hg] at h
    rw [(alignGroup_ok h).1 rfl]
    rfl
  | cons r0 rest =>
    rw [hg] at h
    obtain ⟨y, m, d, hpi, hout⟩ := (alignGroup_ok h).2 r0 rfl
    rw [hout, List.length_map]

theorem alignConcat_length :
    ∀ (ks : List (String × String)) (l : List LRow) (g : List ARow),
      alignConcat l ks = .ok g →
      g.length = (ks.map (fun k => (l.filter (fun r => lKey r == k)).length)).sum := by
  intro ks
  induction ks with
  | nil =>
    intro l g h
    injection h with h'
    rw [← h']
    rfl
  | cons k ks ih =>
    intro l g h
    rw [alignConcat] at h
    cases h1 : alignGroup (l.filter (fun x => lKey x == k)) with
    | error e => rw [h1] at h; exact Except.noConfusion h
    | ok g1 =>
      rw [h1] at h
      replace h : (alignConcat l ks).map (fun rest => g1 ++ rest) = .ok g := h
      cases h2 : alignConcat l ks with
      | error e => rw [h2] at h; exact Except.noConfusion h
      | ok g2 =>
        rw [h2] at h
        replace h : Except.ok (g1 ++ g2) = .ok g := h
        injection h with h'
        rw [← h', List.length_append, List.map_cons, List.sum_cons,
          alignGroup_length h1, ih l g2 h2]

theorem dedupFirstAux_nodup {α : Type} [DecidableEq α] :
    ∀ (l seen : List α), (dedupFirstAux seen l).Nodup := by
  intro l
  induction l with
  | nil => intro seen; exact List.nodup_nil
  | cons c cs ih =>
    intro seen
    rw [dedupFirstAux]
    by_cases hc : c ∈ seen
    · rw [if_pos hc]
      exact ih seen
    · rw [if_neg hc]
      refine List.Nodup.cons ?_ (ih (c :: seen))
      intro hmem
      exact ((mem_dedupFirstAux _ _).mp hmem).2 (List.mem_cons_self c seen)

theorem dedupFirst_nodup {α : Type} [DecidableEq α] (l : List α) :
    (dedupFirst l).Nodup :=
  dedupFirstAux_nodup l []

theorem partition_sum :
    ∀ (ks : List (String × String)) (l : List LRow), ks.Nodup →
      (∀ r ∈ l, lKey r ∈ ks) →
      (ks.map (fun k => (l.filter (fun r => lKey r == k)).length)).sum = l.length := by
  intro ks
  induction ks with
  | nil =>
    intro l _ hcov
    have hl : l = [] := by
      cases l with
      | nil => rfl
      | cons r rs => exact absurd (hcov r (List.mem_cons_self r rs)) (List.not_mem_nil _)
    rw [hl]
    rfl
  | cons k ks ih =>
    intro l hnd hcov
    rw [List.map_cons, List.sum_cons]
    have hnd2 := List.nodup_cons.mp hnd
    have htail : ∀ k' ∈ ks, (l.filter (fun r => lKey r == k')).length =
        ((l.filter (fun r => !(lKey r == k))).filter (fun r => lKey r == k')).length := by
      intro k' hk'
      have hkne : k' ≠ k := fun e => hnd2.1 (e ▸ hk')
      rw [List.filter_filter]
      have hfe : List.filter (fun r => lKey r == k') l =
          List.filter (fun a => (lKey a == k') && !(lKey a == k)) l := by
        apply List.filter_congr
        intro x hx
        by_cases hxk : (lKey x == k') = true
        · rw [hxk, Bool.true_and]
          have : (lKey x == k) = false := by
            rw [beq_eq_false_iff_ne]
            rw [eq_of_beq hxk]
            exact hkne
          rw [this]
          rfl
        · rw [Bool.eq_false_iff.mpr hxk, Bool.false_and]
      rw [← hfe]
    have hsum : (ks.map (fun k' => (l.filter (fun r => lKey r == k')).length)).sum =
        (ks.map (fun k' => ((l.filter (fun r => !(lKey r == k))).filter
          (fun r => lKey r == k')).length)).sum := by
      rw [List.map_congr_left htail]
    have hcov2 : ∀ r ∈ l.filter (fun r => !(lKey r == k)), lKey r ∈ ks := by
      intro r hr
      rcases List.mem_filter.mp hr with ⟨hrl, hrk⟩
      have hne : lKey r ≠ k := by
        intro e
        rw [e] at hrk
        simp at hrk
      rcases List.mem_cons.mp (hcov r hrl) with he | hm
      · exact absurd he hne
      · exact hm
    rw [hsum, ih (l.filter (fun r => !(lKey r == k))) hnd2.2 hcov2]
    exact (List.length_eq_length_filter_add (fun r => lKey r == k)).symm

theorem alignStage_length {l : List LRow} {g : List ARow}
    (h : alignStage l = .ok g) : g.length = l.length := by
  unfold alignStage at h
  have hlen := alignConcat_length _ l g h
  have hperm : List.Perm ((dedupFirst (l.map lKey)).insertionSort pairLeRel)
      (dedupFirst (l.map lKey)) := List.perm_insertionSort _ _
  have hnd : ((dedupFirst (l.map lKey)).insertionSort pairLeRel).Nodup :=
    hperm.nodup_iff.mpr (dedupFirst_nodup _)
  have hcov : ∀ r ∈ l, lKey r ∈ (dedupFirst (l.map lKey)).insertionSort pairLeRel := by
    intro r hr
    exact (List.mem_insertionSort pairLeRel).mpr
      (mem_dedupFirst.mpr (List.mem_map.mpr ⟨r, hr, rfl⟩))
  rw [hlen, partition_sum _ l hnd hcov]

theorem attachAttempts_length :
    ∀ (l seen : List ARow), (attachAttempts seen l).length = l.length := by
  intro l
  induction l with
  | nil => intro seen; rfl
  | cons r rs ih =>
    intro seen
    rw [attachAttempts, List.length_cons, List.length_cons, ih (seen ++ [r])]

/-- C10: the canonicalization cell removes exact duplicate rows only when
at least one `(course_text, credits)` group carries more than one distinct
course code.  When every group is single-code, the cell is the identity —
pre-existing exact duplicates are NOT removed — and no later stage drops
rows, so those duplicates reach the final output (the output has exactly
one row per surviving normalized row). -/
theorem claim10_duplicates_pass_through (input : List RawRow)
    (N : List NRow) (out : List FRow)
    (hN : normalizeStage (instituteFilter (activityFilter (cohortRows input))) = .ok N)
    (hsingle : ∀ r ∈ N, isDupKey N (rowKey r) = false)
    (hout : pipeline input = .ok out) :
    canonicalize N = N ∧ out.length = N.length := by
  have hid := canonicalize_id hsingle
  refine ⟨hid, ?_⟩
  unfold pipeline at hout
  replace hout : (normalizeStage (instituteFilter (activityFilter (cohortRows input)))).bind
      (fun l4 => (dateStage (canonicalize l4)).bind (fun l6 =>
        (labelStage l6).bind (fun l7 =>
          (alignStage l7).map (fun l8 => sortStage (addAttempts l8))))) =
      Except.ok out := hout
  rw [hN] at hout
  replace hout : (dateStage (canonicalize N)).bind (fun l6 =>
      (labelStage l6).bind (fun l7 =>
        (alignStage l7).map (fun l8 => sortStage (addAttempts l8)))) =
    Except.ok out := hout
  rw [hid] at hout
  cases hd : dateStage N with
  | error e => rw [hd] at hout; exact Except.noConfusion hout
  | ok l6 =>
    rw [hd] at hout
    replace hout : (labelStage l6).bind (fun l7 =>
        (alignStage l7).map (fun l8 => sortStage (addAttempts l8))) =
      Except.ok out := hout
    cases hl : labelStage l6 with
    | error e => rw [hl] at hout; exact Except.noConfusion hout
    | ok l7 =>
      rw [hl] at hout
      replace hout : (alignStage l7).map (fun l8 => sortStage (addAttempts l8)) =
        Except.ok out := hout
      cases ha : alignStage l7 with
      | error e => rw [ha] at hout; exact Except.noConfusion hout
      | ok l8 =>
        rw [ha] at hout
        replace hout : Except.ok (sortStage (addAttempts l8)) = Except.ok out := hout
        injection hout with h'
        rw [← h']
        unfold sortStage
        rw [List.length_insertionSort]
        unfold addAttempts
        rw [attachAttempts_length l8 [], alignStage_length ha,
          (mapM_except_spec labelRow hl).1, (mapM_except_spec dateRow hd).1]

/-- A concrete input with a byte-identical duplicate pair and only
single-code `(course_text, credits)` groups. -/
def singleCodeDupEx : List RawRow :=
  [⟨"s1", "Softwareteknologi, ing.prof.bach.", "CA", some "ALPHA", "7", "7t",
      "5", "W", "E", "01/05/2020"⟩,
   ⟨"s1", "Softwareteknologi, ing.prof.bach.", "CA", some "ALPHA", "7", "7t",
      "5", "W", "E", "01/05/2020"⟩,
   ⟨"s1", "Softwareteknologi, ing.prof.bach.", "CB", some "BETA", "7", "7t",
      "5", "W", "E", "01/11/2021"⟩]

/-- C10 (witness): on `singleCodeDupEx` the canonicalizer is the identity
and all three rows — including the exact duplicate — reach the output. -/
theorem claim10_witness :
    canonicalize
      [⟨"s1", "CA", "ALPHA", "7", "7t", "5", "W", "E", "01/05/2020"⟩,
       ⟨"s1", "CA", "ALPHA", "7", "7t", "5", "W", "E", "01/05/2020"⟩,
       ⟨"s1", "CB", "BETA", "7", "7t", "5", "W", "E", "01/11/2021"⟩] =
      [⟨"s1", "CA", "ALPHA", "7", "7t", "5", "W", "E", "01/05/2020"⟩,
       ⟨"s1", "CA", "ALPHA", "7", "7t", "5", "W", "E", "01/05/2020"⟩,
       ⟨"s1", "CB", "BETA", "7", "7t", "5", "W", "E", "01/11/2021"⟩] ∧
    ([⟨"s1", "CA", "ALPHA", "7", "7t", "5", "W", "E", "2020-05-01",
        "Spring 2020", "2020-06-01", 1⟩,
      ⟨"s1", "CA", "ALPHA", "7", "7t", "5", "W", "E", "2020-05-01",
        "Spring 2020", "2020-06-01", 2⟩,
      (⟨"s1", "CB", "BETA", "7", "7t", "5", "W", "E", "2021-11-01",
        "Fall 2021", "2021-12-01", 1⟩ : FRow)] : List FRow).length =
    ([⟨"s1", "CA", "ALPHA", "7", "7t", "5", "W", "E", "01/05/2020"⟩,
      ⟨"s1", "CA", "ALPHA", "7", "7t", "5", "W", "E", "01/05/2020"⟩,
      (⟨"s1", "CB", "BETA", "7", "7t", "5", "W", "E", "01/11/2021"⟩ : NRow)] : List NRow).length :=
  claim10_duplicates_pass_through singleCodeDupEx
    [⟨"s1", "CA", "ALPHA", "7", "7t", "5", "W", "E", "01/05/2020"⟩,
     ⟨"s1", "CA", "ALPHA", "7", "7t", "5", "W", "E", "01/05/2020"⟩,
     ⟨"s1", "CB", "BETA", "7", "7t", "5", "W", "E", "01/11/2021"⟩]
    [⟨"s1", "CA", "ALPHA", "7", "7t", "5", "W", "E", "2020-05-01",
        "Spring 2020", "2020-06-01", 1⟩,
     ⟨"s1", "CA", "ALPHA", "7", "7t", "5", "W", "E", "2020-05-01",
        "Spring 2020", "2020-06-01", 2⟩,
     ⟨"s1", "CB", "BETA", "7", "7t", "5", "W", "E", "2021-11-01",
        "Fall 2021", "2021-12-01", 1⟩]
    rfl (by decide) rfl
